import Mathlib

/-!
Verification of the WNTR multi-species reaction-transport (MSX) core against its
natural-language specification.

The repository snapshot at hand contains the serialized `lead_ppm` model file, the
documentation of the water-network model, and the two tutorial notebooks
(pipe-break / pipe-segments / multi-species quality).  The MSX engine itself
(serialization, expression evaluation, parameter resolution, segment transport,
kinetics, model catalog) is exercised by those files but its code is not part of
the snapshot, so those components are modelled here from the specification, with
the serialized `lead_ppm` model and the notebook code as concrete anchors.

Numeric fields are modelled as rationals (the spec declares them IEEE-754
doubles; all claims under study are exact-arithmetic claims about the algebra of
the operations, so `ℚ` is the standard shallow embedding choice).
-/

/-- Modelled from the spec: a JSON value, the external serialized form of a model
(§4.5, §6).  Objects are ordered association lists, which is what lets us speak
about "the ordering of the serialized maps". -/
inductive J where
  | null : J
  | num : ℚ → J
  | str : String → J
  | arr : List J → J
  | obj : List (String × J) → J

/-- Extract a string payload. -/
def J.asStr : J → Option String
  | .str s => some s
  | _ => none

/-- Extract a numeric payload. -/
def J.asNum : J → Option ℚ
  | .num q => some q
  | _ => none

/-- Extract a nullable numeric payload (`null` ↦ `none`). -/
def J.asOptNum : J → Option (Option ℚ)
  | .null => some none
  | .num q => some (some q)
  | _ => none

/-- Extract a nullable string payload (`null` ↦ `none`). -/
def J.asOptStr : J → Option (Option String)
  | .null => some none
  | .str s => some (some s)
  | _ => none

/-- Extract the entry list of an object. -/
def J.asObj : J → Option (List (String × J))
  | .obj l => some l
  | _ => none

/-- Extract the element list of an array. -/
def J.asArr : J → Option (List J)
  | .arr l => some l
  | _ => none

/-- Encode a nullable number. -/
def J.ofOptNum : Option ℚ → J
  | none => .null
  | some q => .num q

/-- Encode a nullable string. -/
def J.ofOptStr : Option String → J
  | none => .null
  | some s => .str s

/-- Field access in a decoded object: first binding wins, as a JSON reader does. -/
def getField (kvs : List (String × J)) (k : String) : Option J :=
  kvs.lookup k

/-- Field access composed with a payload extractor. -/
def getStr (kvs : List (String × J)) (k : String) : Option String :=
  (getField kvs k).bind J.asStr

/-- Numeric field access. -/
def getNum (kvs : List (String × J)) (k : String) : Option ℚ :=
  (getField kvs k).bind J.asNum

/-- Nullable numeric field access. -/
def getOptNum (kvs : List (String × J)) (k : String) : Option (Option ℚ) :=
  (getField kvs k).bind J.asOptNum

/-- Nullable string field access. -/
def getOptStr (kvs : List (String × J)) (k : String) : Option (Option String) :=
  (getField kvs k).bind J.asOptStr

/-- Effectful map over a list in the `Option` monad, written out structurally so
that decoding proofs can proceed by plain induction. -/
def decodeList (dec : α → Option β) : List α → Option (List β)
  | [] => some []
  | a :: l => (dec a).bind fun b => (decodeList dec l).map fun bs => b :: bs

/-- Modelled from the spec: species class (§3). -/
inductive SpeciesType where
  | bulk : SpeciesType
  | wall : SpeciesType
deriving DecidableEq

/-- Serialized name of a species class. -/
def SpeciesType.toStr : SpeciesType → String
  | .bulk => "bulk"
  | .wall => "wall"

/-- Parse a species class name. -/
def SpeciesType.ofStr : String → Option SpeciesType
  | "bulk" => some SpeciesType.bulk
  | "wall" => some SpeciesType.wall
  | _ => none

/-- Modelled from the spec: a species declaration (§3); field names follow the
serialized `lead_ppm` model. -/
structure Species where
  species_type : SpeciesType
  units : String
  atol : Option ℚ
  rtol : Option ℚ
  note : String
deriving DecidableEq

/-- Modelled from the spec: a constant declaration (§3). -/
structure Constant where
  value : ℚ
  units : String
  note : String
deriving DecidableEq

/-- Modelled from the spec: a parameter declaration (§3): a global default value
plus (in the network data) optional per-pipe and per-tank override maps. -/
structure Parameter where
  global_value : ℚ
  note : String
deriving DecidableEq

/-- Modelled from the spec: reaction expression type (§3). -/
inductive ExpressionType where
  | rate : ExpressionType
  | equilibrium : ExpressionType
  | formula : ExpressionType
deriving DecidableEq

/-- Serialized name of an expression type. -/
def ExpressionType.toStr : ExpressionType → String
  | .rate => "rate"
  | .equilibrium => "equilibrium"
  | .formula => "formula"

/-- Parse an expression type name. -/
def ExpressionType.ofStr : String → Option ExpressionType
  | "rate" => some ExpressionType.rate
  | "equilibrium" => some ExpressionType.equilibrium
  | "formula" => some ExpressionType.formula
  | _ => none

/-- Modelled from the spec: a reaction, keyed in its list by `species_name` (§3). -/
structure Reaction where
  expression_type : ExpressionType
  expression : String
deriving DecidableEq

/-- Modelled from the spec: the reaction system (§3, §4.5): species, constants,
parameters, named terms and per-location-class reactions, each keyed by name. -/
structure ReactionSystem where
  species : List (String × Species)
  constants : List (String × Constant)
  parameters : List (String × Parameter)
  terms : List (String × String)
  pipe_reactions : List (String × Reaction)
  tank_reactions : List (String × Reaction)
deriving DecidableEq

/-- Modelled from the spec: per-species initial quality: a global value plus
node-keyed and link-keyed override maps (§3). -/
structure InitialQuality where
  global_value : ℚ
  node_values : List (String × ℚ)
  link_values : List (String × ℚ)
deriving DecidableEq

/-- Modelled from the spec: per-parameter pipe-keyed and tank-keyed override
maps (§3, §4.2). -/
structure ParameterValues where
  pipe_values : List (String × ℚ)
  tank_values : List (String × ℚ)
deriving DecidableEq

/-- Modelled from the spec: the kind of an external source (§3). -/
inductive SourceKind where
  | concentration : SourceKind
  | massflow : SourceKind
  | flowpaced : SourceKind
  | setpoint : SourceKind
deriving DecidableEq

/-- Serialized name of a source kind. -/
def SourceKind.toStr : SourceKind → String
  | .concentration => "concentration"
  | .massflow => "mass"
  | .flowpaced => "flowpaced"
  | .setpoint => "setpoint"

/-- Parse a source kind name. -/
def SourceKind.ofStr : String → Option SourceKind
  | "concentration" => some SourceKind.concentration
  | "mass" => some SourceKind.massflow
  | "flowpaced" => some SourceKind.flowpaced
  | "setpoint" => some SourceKind.setpoint
  | _ => none

/-- Modelled from the spec: an external source, keyed in the network data by its
location (§3): species, base strength, kind, optional time-pattern reference. -/
structure Source where
  species : String
  strength : ℚ
  kind : SourceKind
  pattern : Option String
deriving DecidableEq

/-- Modelled from the spec: the network-bound half of a model (§3, §4.5):
initial quality and parameter overrides, sources and patterns. -/
structure NetworkData where
  initial_quality : List (String × InitialQuality)
  parameter_values : List (String × ParameterValues)
  sources : List (String × Source)
  patterns : List (String × List ℚ)
deriving DecidableEq

/-- Modelled from the spec: reporting selectors, carried through the options
(§3); field names follow the serialized `lead_ppm` model. -/
structure ReportOptions where
  pagesize : Option ℚ
  report_filename : Option String
  species : List (String × String)
  species_precision : List (String × ℚ)
  nodes : String
  links : String
deriving DecidableEq

/-- Modelled from the spec: discretization and numerics options (§3, §6);
field names follow the serialized `lead_ppm` model. -/
structure MsxOptions where
  timestep : ℚ
  area_units : String
  rate_units : String
  solver : String
  coupling : String
  rtol : ℚ
  atol : ℚ
  compiler : String
  segments : ℚ
  peclet : ℚ
  report : ReportOptions
deriving DecidableEq

/-- Modelled from the spec: a model = reaction system + network data + options
(§3), with the descriptive header fields of the serialized form. -/
structure MsxModel where
  wntr_version : String
  name : String
  title : String
  description : String
  references : List String
  reaction_system : ReactionSystem
  network_data : NetworkData
  options : MsxOptions
deriving DecidableEq

/-- Encode a scalar-valued map (node, link, pipe or tank overrides; report
selectors) as a JSON object. -/
def numMapToJson (l : List (String × ℚ)) : J :=
  J.obj (l.map fun p => (p.1, J.num p.2))

/-- Decode a scalar-valued map. -/
def numMapOfJson (j : J) : Option (List (String × ℚ)) :=
  j.asObj.bind (decodeList fun p => (J.asNum p.2).map fun q => (p.1, q))

/-- Encode a string-valued map (report species selectors). -/
def strMapToJson (l : List (String × String)) : J :=
  J.obj (l.map fun p => (p.1, J.str p.2))

/-- Decode a string-valued map. -/
def strMapOfJson (j : J) : Option (List (String × String)) :=
  j.asObj.bind (decodeList fun p => (J.asStr p.2).map fun s => (p.1, s))

/-- Encode a species entry, name embedded as in the serialized `lead_ppm` model. -/
def speciesToJson (p : String × Species) : J :=
  J.obj [("name", J.str p.1), ("species_type", J.str p.2.species_type.toStr),
    ("units", J.str p.2.units), ("atol", J.ofOptNum p.2.atol),
    ("rtol", J.ofOptNum p.2.rtol), ("note", J.str p.2.note)]

/-- Decode a species entry. -/
def speciesOfJson (j : J) : Option (String × Species) := do
  let kvs ← j.asObj
  let name ← getStr kvs "name"
  let st ← (getStr kvs "species_type").bind SpeciesType.ofStr
  let units ← getStr kvs "units"
  let atol ← getOptNum kvs "atol"
  let rtol ← getOptNum kvs "rtol"
  let note ← getStr kvs "note"
  pure (name, ⟨st, units, atol, rtol, note⟩)

/-- Encode a constant entry. -/
def constantToJson (p : String × Constant) : J :=
  J.obj [("name", J.str p.1), ("value", J.num p.2.value),
    ("units", J.str p.2.units), ("note", J.str p.2.note)]

/-- Decode a constant entry. -/
def constantOfJson (j : J) : Option (String × Constant) := do
  let kvs ← j.asObj
  let name ← getStr kvs "name"
  let value ← getNum kvs "value"
  let units ← getStr kvs "units"
  let note ← getStr kvs "note"
  pure (name, ⟨value, units, note⟩)

/-- Encode a parameter entry. -/
def parameterToJson (p : String × Parameter) : J :=
  J.obj [("name", J.str p.1), ("global_value", J.num p.2.global_value),
    ("note", J.str p.2.note)]

/-- Decode a parameter entry. -/
def parameterOfJson (j : J) : Option (String × Parameter) := do
  let kvs ← j.asObj
  let name ← getStr kvs "name"
  let gv ← getNum kvs "global_value"
  let note ← getStr kvs "note"
  pure (name, ⟨gv, note⟩)

/-- Encode a term entry (name and expression string). -/
def termToJson (p : String × String) : J :=
  J.obj [("name", J.str p.1), ("expression", J.str p.2)]

/-- Decode a term entry. -/
def termOfJson (j : J) : Option (String × String) := do
  let kvs ← j.asObj
  let name ← getStr kvs "name"
  let e ← getStr kvs "expression"
  pure (name, e)

/-- Encode a reaction entry, keyed by `species_name`. -/
def reactionToJson (p : String × Reaction) : J :=
  J.obj [("species_name", J.str p.1),
    ("expression_type", J.str p.2.expression_type.toStr),
    ("expression", J.str p.2.expression)]

/-- Decode a reaction entry. -/
def reactionOfJson (j : J) : Option (String × Reaction) := do
  let kvs ← j.asObj
  let name ← getStr kvs "species_name"
  let et ← (getStr kvs "expression_type").bind ExpressionType.ofStr
  let e ← getStr kvs "expression"
  pure (name, ⟨et, e⟩)

/-- Encode the reaction system (§4.5 schema). -/
def reactionSystemToJson (rs : ReactionSystem) : J :=
  J.obj [("species", J.arr (rs.species.map speciesToJson)),
    ("constants", J.arr (rs.constants.map constantToJson)),
    ("parameters", J.arr (rs.parameters.map parameterToJson)),
    ("terms", J.arr (rs.terms.map termToJson)),
    ("pipe_reactions", J.arr (rs.pipe_reactions.map reactionToJson)),
    ("tank_reactions", J.arr (rs.tank_reactions.map reactionToJson))]

/-- Decode the reaction system. -/
def reactionSystemOfJson (j : J) : Option ReactionSystem := do
  let kvs ← j.asObj
  let species ← ((getField kvs "species").bind J.asArr).bind (decodeList speciesOfJson)
  let constants ← ((getField kvs "constants").bind J.asArr).bind (decodeList constantOfJson)
  let parameters ← ((getField kvs "parameters").bind J.asArr).bind (decodeList parameterOfJson)
  let terms ← ((getField kvs "terms").bind J.asArr).bind (decodeList termOfJson)
  let pipe_reactions ← ((getField kvs "pipe_reactions").bind J.asArr).bind (decodeList reactionOfJson)
  let tank_reactions ← ((getField kvs "tank_reactions").bind J.asArr).bind (decodeList reactionOfJson)
  pure ⟨species, constants, parameters, terms, pipe_reactions, tank_reactions⟩

/-- Encode an initial-quality entry. -/
def initialQualityToJson (iq : InitialQuality) : J :=
  J.obj [("global_value", J.num iq.global_value),
    ("node_values", numMapToJson iq.node_values),
    ("link_values", numMapToJson iq.link_values)]

/-- Decode an initial-quality entry. -/
def initialQualityOfJson (j : J) : Option InitialQuality := do
  let kvs ← j.asObj
  let gv ← getNum kvs "global_value"
  let nv ← (getField kvs "node_values").bind numMapOfJson
  let lv ← (getField kvs "link_values").bind numMapOfJson
  pure ⟨gv, nv, lv⟩

/-- Encode a parameter-values entry. -/
def parameterValuesToJson (pv : ParameterValues) : J :=
  J.obj [("pipe_values", numMapToJson pv.pipe_values),
    ("tank_values", numMapToJson pv.tank_values)]

/-- Decode a parameter-values entry. -/
def parameterValuesOfJson (j : J) : Option ParameterValues := do
  let kvs ← j.asObj
  let pv ← (getField kvs "pipe_values").bind numMapOfJson
  let tv ← (getField kvs "tank_values").bind numMapOfJson
  pure ⟨pv, tv⟩

/-- Encode a source entry. -/
def sourceToJson (s : Source) : J :=
  J.obj [("species", J.str s.species), ("strength", J.num s.strength),
    ("source_type", J.str s.kind.toStr), ("pattern", J.ofOptStr s.pattern)]

/-- Decode a source entry. -/
def sourceOfJson (j : J) : Option Source := do
  let kvs ← j.asObj
  let sp ← getStr kvs "species"
  let strength ← getNum kvs "strength"
  let kind ← (getStr kvs "source_type").bind SourceKind.ofStr
  let pat ← getOptStr kvs "pattern"
  pure ⟨sp, strength, kind, pat⟩

/-- Encode the network data (§4.5 schema): objects keyed by species, parameter,
location and pattern name respectively. -/
def networkDataToJson (nd : NetworkData) : J :=
  J.obj [("initial_quality", J.obj (nd.initial_quality.map fun p => (p.1, initialQualityToJson p.2))),
    ("parameter_values", J.obj (nd.parameter_values.map fun p => (p.1, parameterValuesToJson p.2))),
    ("sources", J.obj (nd.sources.map fun p => (p.1, sourceToJson p.2))),
    ("patterns", J.obj (nd.patterns.map fun p => (p.1, J.arr (p.2.map J.num))))]

/-- Decode the network data. -/
def networkDataOfJson (j : J) : Option NetworkData := do
  let kvs ← j.asObj
  let iq ← ((getField kvs "initial_quality").bind J.asObj).bind
    (decodeList fun p => (initialQualityOfJson p.2).map fun v => (p.1, v))
  let pv ← ((getField kvs "parameter_values").bind J.asObj).bind
    (decodeList fun p => (parameterValuesOfJson p.2).map fun v => (p.1, v))
  let src ← ((getField kvs "sources").bind J.asObj).bind
    (decodeList fun p => (sourceOfJson p.2).map fun v => (p.1, v))
  let pat ← ((getField kvs "patterns").bind J.asObj).bind
    (decodeList fun p => (p.2.asArr.bind (decodeList J.asNum)).map fun v => (p.1, v))
  pure ⟨iq, pv, src, pat⟩

/-- Encode the report options. -/
def reportToJson (r : ReportOptions) : J :=
  J.obj [("pagesize", J.ofOptNum r.pagesize),
    ("report_filename", J.ofOptStr r.report_filename),
    ("species", strMapToJson r.species),
    ("species_precision", numMapToJson r.species_precision),
    ("nodes", J.str r.nodes), ("links", J.str r.links)]

/-- Decode the report options. -/
def reportOfJson (j : J) : Option ReportOptions := do
  let kvs ← j.asObj
  let pagesize ← getOptNum kvs "pagesize"
  let fn ← getOptStr kvs "report_filename"
  let species ← (getField kvs "species").bind strMapOfJson
  let prec ← (getField kvs "species_precision").bind numMapOfJson
  let nodes ← getStr kvs "nodes"
  let links ← getStr kvs "links"
  pure ⟨pagesize, fn, species, prec, nodes, links⟩

/-- Encode the options (§4.5 schema, field set of the serialized `lead_ppm` model). -/
def optionsToJson (o : MsxOptions) : J :=
  J.obj [("timestep", J.num o.timestep), ("area_units", J.str o.area_units),
    ("rate_units", J.str o.rate_units), ("solver", J.str o.solver),
    ("coupling", J.str o.coupling), ("rtol", J.num o.rtol), ("atol", J.num o.atol),
    ("compiler", J.str o.compiler), ("segments", J.num o.segments),
    ("peclet", J.num o.peclet), ("report", reportToJson o.report)]

/-- Decode the options. -/
def optionsOfJson (j : J) : Option MsxOptions := do
  let kvs ← j.asObj
  let timestep ← getNum kvs "timestep"
  let au ← getStr kvs "area_units"
  let ru ← getStr kvs "rate_units"
  let solver ← getStr kvs "solver"
  let coupling ← getStr kvs "coupling"
  let rtol ← getNum kvs "rtol"
  let atol ← getNum kvs "atol"
  let compiler ← getStr kvs "compiler"
  let segments ← getNum kvs "segments"
  let peclet ← getNum kvs "peclet"
  let report ← (getField kvs "report").bind reportOfJson
  pure ⟨timestep, au, ru, solver, coupling, rtol, atol, compiler, segments, peclet, report⟩

/-- Modelled from the spec: the canonical empty value of an initial-quality
entry, as written by the library variant (§4.5): the structurally required
global value is preserved, node and link overrides are dropped. -/
def InitialQuality.asLibrary (iq : InitialQuality) : InitialQuality :=
  ⟨iq.global_value, [], []⟩

/-- Modelled from the spec: the canonical empty value of the network data
(§4.5): one structurally required entry per species and per parameter with all
location-specific overrides dropped, no sources, no patterns. -/
def NetworkData.asLibrary (nd : NetworkData) : NetworkData :=
  ⟨nd.initial_quality.map fun p => (p.1, p.2.asLibrary),
   nd.parameter_values.map fun p => (p.1, ParameterValues.mk [] []),
   [], []⟩

/-- Modelled from the spec: the library variant of a model: network data forced
to its canonical empty value, everything else as in the bound form (§4.5). -/
def MsxModel.asLibrary (m : MsxModel) : MsxModel :=
  { m with network_data := m.network_data.asLibrary }

/-- Encode a full model (§4.5 schema, top-level keys of the serialized
`lead_ppm` model). -/
def modelToJson (m : MsxModel) : J :=
  J.obj [("wntr-version", J.str m.wntr_version), ("name", J.str m.name),
    ("title", J.str m.title), ("description", J.str m.description),
    ("references", J.arr (m.references.map J.str)),
    ("reaction_system", reactionSystemToJson m.reaction_system),
    ("network_data", networkDataToJson m.network_data),
    ("options", optionsToJson m.options)]

/-- Modelled from the spec: `write_json`: serialize a model, forcing the
network data to its canonical empty value when writing as a library (§4.5). -/
def write_json (m : MsxModel) (as_library : Bool) : J :=
  modelToJson (if as_library then m.asLibrary else m)

/-- Decode a full model.  `SerializationError` (a malformed or
schema-violating file) is the `none` result: nothing is partially loaded. -/
def read_json (j : J) : Option MsxModel := do
  let kvs ← j.asObj
  let ver ← getStr kvs "wntr-version"
  let name ← getStr kvs "name"
  let title ← getStr kvs "title"
  let description ← getStr kvs "description"
  let refs ← ((getField kvs "references").bind J.asArr).bind (decodeList J.asStr)
  let rs ← (getField kvs "reaction_system").bind reactionSystemOfJson
  let nd ← (getField kvs "network_data").bind networkDataOfJson
  let opts ← (getField kvs "options").bind optionsOfJson
  pure ⟨ver, name, title, description, refs, rs, nd, opts⟩

/-- Modelled from the spec: a scoped algebraic expression over named real
variables (§4.1); the textual parser is out of scope of the claims under study,
so expressions are represented as their syntax trees. -/
inductive Expr where
  | num : ℚ → Expr
  | var : String → Expr
  | add : Expr → Expr → Expr
  | sub : Expr → Expr → Expr
  | mul : Expr → Expr → Expr
  | div : Expr → Expr → Expr
  | neg : Expr → Expr
deriving DecidableEq

/-- The free names of an expression, in left-to-right order. -/
def Expr.vars : Expr → List String
  | .num _ => []
  | .var s => [s]
  | .add a b => a.vars ++ b.vars
  | .sub a b => a.vars ++ b.vars
  | .mul a b => a.vars ++ b.vars
  | .div a b => a.vars ++ b.vars
  | .neg a => a.vars

/-- Modelled from the spec: pure evaluation of an expression in an environment
(§4.1).  An unresolved name or a division by a runtime zero yields `none`
(`EvaluationError`); the error vocabulary of evaluation contains no
`CyclicTermError`, which by construction can only be raised at build time. -/
def Expr.eval (env : String → Option ℚ) : Expr → Option ℚ
  | .num q => some q
  | .var s => env s
  | .add a b => (a.eval env).bind fun x => (b.eval env).map fun y => x + y
  | .sub a b => (a.eval env).bind fun x => (b.eval env).map fun y => x - y
  | .mul a b => (a.eval env).bind fun x => (b.eval env).map fun y => x * y
  | .div a b => (a.eval env).bind fun x => (b.eval env).bind fun y =>
      if y = 0 then none else some (x / y)
  | .neg a => (a.eval env).map fun x => -x

/-- Modelled from the spec: the reserved geometry variables (§4.1), such as the
surface-area-to-volume ratio `Av`. -/
def reservedNames : List String := ["Av", "Len", "Vol", "Q", "U", "Re", "Us", "Ff", "D"]

/-- Modelled from the spec: the in-memory reaction system seen by the evaluator
(§4.1, design note §9): expressions already in tree form. -/
structure CoreSystem where
  species : List String
  constants : List (String × ℚ)
  parameters : List (String × ℚ)
  terms : List (String × Expr)
  pipeReactions : List (String × Expr)
  tankReactions : List (String × Expr)
deriving DecidableEq

/-- The declared term names of a system, in declaration order. -/
def termNames (sys : CoreSystem) : List String :=
  sys.terms.map Prod.fst

/-- The term-reference edges out of a term: the free names of its expression
that are themselves terms (§4.1). -/
def termAdj (sys : CoreSystem) (a : String) : List String :=
  match sys.terms.lookup a with
  | some e => e.vars.filter fun v => (termNames sys).contains v
  | none => []

/-- Modelled from the spec: depth-first traversal with an on-path marker (§4.1,
design note §9): visiting a node already on the current path reports a cycle.
Fuel bounds the depth; the builder passes one more than the number of terms,
which a simple cycle can never exhaust. -/
def dfsCycle (adj : String → List String) : ℕ → List String → String → Bool
  | 0, _, _ => false
  | fuel + 1, path, v =>
    if v ∈ path then true
    else (adj v).any (dfsCycle adj fuel (v :: path))

/-- Run the cycle detection from every term; returns the first term from which
the traversal finds a cycle. -/
def findCycle (sys : CoreSystem) : Option String :=
  (termNames sys).find? fun c =>
    dfsCycle (termAdj sys) (sys.terms.length + 1) [] c

/-- Modelled from the spec: the build-time error taxonomy relevant to model
construction (§7). -/
inductive BuildError where
  | undefinedReference : String → BuildError
  | cyclicTerm : String → BuildError
  | duplicateReaction : String → BuildError
deriving DecidableEq

/-- All names an expression may legally reference (§4.1): reserved geometry
variables, species, constants, parameters and terms. -/
def declaredNames (sys : CoreSystem) : List String :=
  reservedNames ++ sys.species ++ sys.constants.map Prod.fst ++
    sys.parameters.map Prod.fst ++ termNames sys

/-- The first undeclared name referenced by any term or reaction expression,
if one exists. -/
def undefinedRef (sys : CoreSystem) : Option String :=
  ((sys.terms ++ sys.pipeReactions ++ sys.tankReactions).flatMap fun p => p.2.vars).find?
    fun v => !((declaredNames sys).contains v)

/-- The species of a duplicated (species, location-class) reaction, if any (§7). -/
def duplicateReaction (sys : CoreSystem) : Option String :=
  (sys.pipeReactions.map Prod.fst).find? (fun s => 1 < (sys.pipeReactions.map Prod.fst).count s) <|>
  (sys.tankReactions.map Prod.fst).find? (fun s => 1 < (sys.tankReactions.map Prod.fst).count s)

/-- Modelled from the spec: model construction (§4.1, §7): validation is
performed once at build time — a term-reference cycle, an undeclared name or a
duplicate reaction aborts construction with the corresponding build error, and
a model that fails validation is never produced. -/
def buildModel (sys : CoreSystem) : Except BuildError CoreSystem :=
  match findCycle sys with
  | some c => .error (.cyclicTerm c)
  | none =>
    match undefinedRef sys with
    | some v => .error (.undefinedReference v)
    | none =>
      match duplicateReaction sys with
      | some s => .error (.duplicateReaction s)
      | none => .ok sys

/-- A step of the term-reference relation: `b` is a term referenced by term `a`. -/
def termStep (sys : CoreSystem) (a b : String) : Prop :=
  b ∈ termAdj sys a

/-- The term-reference graph contains a cycle: some simple closed walk
`c → x₁ → ⋯ → c` of positive length through the terms. -/
def HasTermCycle (sys : CoreSystem) : Prop :=
  ∃ c xs, c ∈ termNames sys ∧ xs ≠ [] ∧ List.Chain (termStep sys) c xs ∧
    xs.getLastD c = c ∧ (c :: xs.dropLast).Nodup

/-- Modelled from the spec: location classes for parameter resolution (§4.2). -/
inductive LocationClass where
  | pipe : LocationClass
  | tank : LocationClass
deriving DecidableEq

/-- Modelled from the spec: `resolve(parameter_name, location_id,
location_class)` (§4.2): the per-location override from the class-relevant map
if present, else the parameter's global value; an unknown parameter is a
build-time validation failure, surfaced here as `none`. -/
def resolve (rs : ReactionSystem) (nd : NetworkData) (pname loc : String)
    (cls : LocationClass) : Option ℚ :=
  (rs.parameters.lookup pname).map fun p =>
    match nd.parameter_values.lookup pname with
    | none => p.global_value
    | some pv =>
      match cls with
      | .pipe => (pv.pipe_values.lookup loc).getD p.global_value
      | .tank => (pv.tank_values.lookup loc).getD p.global_value

/-- Modelled from the spec: a segment, the unit of advection (§4.3, glossary):
a well-mixed plug of fluid with a volume and a species concentration.  Species
are advected independently, so the transport state is modelled per species. -/
structure Seg where
  vol : ℚ
  conc : ℚ
deriving DecidableEq

/-- Mass carried by one segment. -/
def Seg.mass (s : Seg) : ℚ := s.vol * s.conc

/-- Total mass of a segment list. -/
def segsMass (l : List Seg) : ℚ := (l.map Seg.mass).sum

/-- Pop (truncate) a given volume of fluid from the downstream end of a pipe's
segment list (the head, the pipe's oldest water), returning the remaining
segments and the mass discharged into the downstream node (§4.3). -/
def popVol : List Seg → ℚ → List Seg × ℚ
  | [], _ => ([], 0)
  | s :: rest, a =>
    if a ≤ 0 then (s :: rest, 0)
    else if s.vol ≤ a then
      let r := popVol rest (a - s.vol)
      (r.1, s.mass + r.2)
    else (⟨s.vol - a, s.conc⟩ :: rest, a * s.conc)

/-- Modelled from the spec: merge of two segments by volume-weighted
concentration average (§4.3); a degenerate zero-volume pair merges to a
zero-volume, zero-concentration segment. -/
def mergeSegs (s1 s2 : Seg) : Seg :=
  ⟨s1.vol + s2.vol,
   if s1.vol + s2.vol = 0 then 0 else (s1.mass + s2.mass) / (s1.vol + s2.vol)⟩

/-- Modelled from the spec: the segment-count cap (§4.3): when the segment
count exceeds the configured maximum, the two oldest downstream segments are
merged by volume-weighted average rather than dropped. -/
def mergeCap (maxSegs : ℕ) (l : List Seg) : List Seg :=
  if maxSegs < l.length then
    match l with
    | s1 :: s2 :: rest => mergeSegs s1 s2 :: rest
    | l' => l'
  else l

/-- Modelled from the spec: the transport state of a network (§4.3, §3):
`nP` pipes, each with declared endpoints, the direction of the previous
step's flow (`fdir i = true` meaning the flow ran `src i → dst i`) and an
ordered segment list kept oriented with head = downstream end with respect
to that direction (the pipe's oldest water); plus a finite node set
partitioned by `isTank` into tanks (with a stored volume and concentration)
and junctions. -/
structure MsxNetwork where
  nP : ℕ
  src : ℕ → ℕ
  dst : ℕ → ℕ
  fdir : ℕ → Bool
  segs : ℕ → List Seg
  nodes : Finset ℕ
  isTank : ℕ → Bool
  tvol : ℕ → ℚ
  tconc : ℕ → ℚ

/-- The direction of this step's signed flow in a pipe: positive flow runs
`src → dst`, negative flow runs `dst → src`, and a zero flow keeps the
previous step's direction (§4.3: a reversal is a change of the flow's sign
relative to the previous step). -/
def curDir (net : MsxNetwork) (flow : ℕ → ℚ) (i : ℕ) : Bool :=
  if 0 < flow i then true else if flow i < 0 then false else net.fdir i

/-- The node at this step's upstream end of a pipe. -/
def upNode (net : MsxNetwork) (flow : ℕ → ℚ) (i : ℕ) : ℕ :=
  if curDir net flow i then net.src i else net.dst i

/-- The node at this step's downstream end of a pipe. -/
def downNode (net : MsxNetwork) (flow : ℕ → ℚ) (i : ℕ) : ℕ :=
  if curDir net flow i then net.dst i else net.src i

/-- Modelled from the spec: flow reversal (§4.3): when the sign of the flow
reverses relative to the previous step, the segment ordering logically
reverses — the former downstream end becomes upstream — without discarding
or reinitializing any segment content. -/
def workSegs (net : MsxNetwork) (flow : ℕ → ℚ) (i : ℕ) : List Seg :=
  if curDir net flow i = net.fdir i then net.segs i else (net.segs i).reverse

/-- Advected volume of a pipe this step: |flow| × timestep (§4.3), the
timestep being folded into the flow schedule. -/
def avolOf (flow : ℕ → ℚ) (i : ℕ) : ℚ := |flow i|

/-- Volume arriving at a node this step: the advected volumes of the pipes
whose current downstream end is that node. -/
def inVol (net : MsxNetwork) (flow : ℕ → ℚ) (n : ℕ) : ℚ :=
  ∑ i ∈ (Finset.range net.nP).filter (fun i => downNode net flow i = n), avolOf flow i

/-- Mass arriving at a node this step: the masses popped from the current
downstream ends of the pipes that discharge into it. -/
def inMass (net : MsxNetwork) (flow : ℕ → ℚ) (n : ℕ) : ℚ :=
  ∑ i ∈ (Finset.range net.nP).filter (fun i => downNode net flow i = n),
    (popVol (workSegs net flow i) (avolOf flow i)).2

/-- Volume leaving a node this step into the pipes whose current upstream end
is that node. -/
def outVol (net : MsxNetwork) (flow : ℕ → ℚ) (n : ℕ) : ℚ :=
  ∑ i ∈ (Finset.range net.nP).filter (fun i => upNode net flow i = n), avolOf flow i

/-- Mixed volume of a tank after inflow (§4.3 tank mixing: a single well-mixed
volume). -/
def mixVol (net : MsxNetwork) (flow : ℕ → ℚ) (n : ℕ) : ℚ :=
  net.tvol n + inVol net flow n

/-- Mixed mass of a tank after inflow. -/
def mixMass (net : MsxNetwork) (flow : ℕ → ℚ) (n : ℕ) : ℚ :=
  net.tvol n * net.tconc n + inMass net flow n

/-- Modelled from the spec: a node's outgoing concentration (§4.3): for a
junction, the flow-weighted average of the concentrations arriving from its
incoming pipes; for a tank, the flow-weighted average of the inflow with the
tank's prior content.  An idle node (no inflow, empty tank) sends zero. -/
def cOut (net : MsxNetwork) (flow : ℕ → ℚ) (n : ℕ) : ℚ :=
  if net.isTank n then
    if mixVol net flow n = 0 then 0 else mixMass net flow n / mixVol net flow n
  else
    if inVol net flow n = 0 then 0 else inMass net flow n / inVol net flow n

/-- One volume exchange across an adjacent segment boundary (§4.3
diffusion-dominated regime): a blending volume `w` carries the mass
`w · (t.conc − s.conc)` from the neighbour into the segment and the opposite
mass back, partially averaging the two concentrations while leaving both
volumes unchanged; a boundary with an empty segment exchanges nothing. -/
def exchangePair (w : ℚ) (s t : Seg) : Seg × Seg :=
  if s.vol = 0 ∨ t.vol = 0 then (s, t)
  else
    (⟨s.vol, (s.mass + w * (t.conc - s.conc)) / s.vol⟩,
     ⟨t.vol, (t.mass - w * (t.conc - s.conc)) / t.vol⟩)

/-- Modelled from the spec: the additional diffusive step of the
diffusion-dominated regime (§4.3): one pass over the pipe's adjacent segment
boundaries, partially averaging concentrations across each boundary with the
numerical scheme's blending volumes `ws`. -/
def diffuseSegs : List ℚ → List Seg → List Seg
  | [], l => l
  | _ :: _, [] => []
  | _ :: _, [s] => [s]
  | w :: ws, s :: t :: rest =>
    let p := exchangePair w s t
    p.1 :: diffuseSegs ws (p.2 :: rest)

/-- One pipe's segment list after a transport step (§4.3): reverse the
segment order on a flow reversal, pop the advected volume from the current
downstream end, append the advected volume of upstream-node water as the new
upstream segment, apply the segment-count cap, and — the per-pipe per-step
runtime regime decision — apply the diffusive averaging pass exactly when the
pipe's Péclet surrogate is below the configured threshold, letting the
segments advect as rigid plugs otherwise. -/
def stepSegs (net : MsxNetwork) (flow : ℕ → ℚ) (maxSegs : ℕ) (pecletTh : ℚ)
    (pec : ℕ → ℚ) (wdiff : ℕ → List ℚ) (i : ℕ) : List Seg :=
  if pec i < pecletTh then
    diffuseSegs (wdiff i)
      (mergeCap maxSegs ((popVol (workSegs net flow i) (avolOf flow i)).1 ++
        [⟨avolOf flow i, cOut net flow (upNode net flow i)⟩]))
  else
    mergeCap maxSegs ((popVol (workSegs net flow i) (avolOf flow i)).1 ++
      [⟨avolOf flow i, cOut net flow (upNode net flow i)⟩])

/-- Modelled from the spec: one hydraulic transport step (§4.3, §5), taking
this step's signed per-pipe flows, per-pipe Péclet surrogates and diffusive
blending volumes: all pipes pop, then node mixing, then every pipe receives
its new upstream segment with cap and regime treatment, tanks are updated
from the mixed state, and the flow directions are remembered for the next
step's reversal test. -/
def transportStep (net : MsxNetwork) (flow : ℕ → ℚ) (maxSegs : ℕ) (pecletTh : ℚ)
    (pec : ℕ → ℚ) (wdiff : ℕ → List ℚ) : MsxNetwork :=
  { net with
    fdir := fun i => curDir net flow i,
    segs := fun i => stepSegs net flow maxSegs pecletTh pec wdiff i,
    tvol := fun n => if net.isTank n then mixVol net flow n - outVol net flow n else net.tvol n,
    tconc := fun n => if net.isTank n then cOut net flow n else net.tconc n }

/-- Total species mass held in pipe segments. -/
def pipesMass (net : MsxNetwork) : ℚ :=
  ∑ i ∈ Finset.range net.nP, segsMass (net.segs i)

/-- Total species mass held in tanks. -/
def tanksMass (net : MsxNetwork) : ℚ :=
  ∑ n ∈ net.nodes.filter (fun n => net.isTank n = true), net.tvol n * net.tconc n

/-- Total species mass of the network: Σ segment volume × concentration over
all pipe segments plus Σ tank volume × concentration over all tanks. -/
def totalMass (net : MsxNetwork) : ℚ := pipesMass net + tanksMass net

/-- Structural well-formedness of a transport state: pipe endpoints are nodes
and segment volumes and tank volumes are nonnegative. -/
def NetWF (net : MsxNetwork) : Prop :=
  (∀ i ∈ Finset.range net.nP, net.src i ∈ net.nodes ∧ net.dst i ∈ net.nodes) ∧
  (∀ i ∈ Finset.range net.nP, ∀ s ∈ net.segs i, 0 ≤ s.vol) ∧
  (∀ n ∈ net.nodes, net.isTank n = true → 0 ≤ net.tvol n)

/-- Hydraulic admissibility of one step's signed flows (supplied by the
external hydraulic collaborator, §6): junctions are volume-balanced and no
tank is drawn below empty.  Flows of either sign are admissible — the
advected volume is the flow's magnitude, and a sign change is a reversal. -/
def FlowOK (net : MsxNetwork) (flow : ℕ → ℚ) : Prop :=
  (∀ n ∈ net.nodes, net.isTank n = false → outVol net flow n = inVol net flow n) ∧
  (∀ n ∈ net.nodes, net.isTank n = true → outVol net flow n ≤ mixVol net flow n)

/-- A closed-network simulation: iterate the transport step under given
per-step signed flows, Péclet surrogates and diffusive blending volumes (a
closed network with zero reaction rates and zero sources has no other state
change). -/
def simulate (net : MsxNetwork) (flows : ℕ → ℕ → ℚ) (maxSegs : ℕ) (pecletTh : ℚ)
    (pecs : ℕ → ℕ → ℚ) (wdiffs : ℕ → ℕ → List ℚ) : ℕ → MsxNetwork
  | 0 => net
  | n + 1 => transportStep (simulate net flows maxSegs pecletTh pecs wdiffs n)
      (flows n) maxSegs pecletTh (pecs n) (wdiffs n)

/-- One reaction substep on a segment: integrate the rate expression at the
segment's current concentration (§4.4). -/
def reactSeg (dt : ℚ) (rate : ℚ → Option ℚ) (s : Seg) : Option Seg :=
  (rate s.conc).map fun r => ⟨s.vol, s.conc + dt * r⟩

/-- One reaction substep on a pipe's segment list; an evaluation fault anywhere
aborts (§7). -/
def reactPipe (dt : ℚ) (rate : ℚ → Option ℚ) (l : List Seg) : Option (List Seg) :=
  decodeList (reactSeg dt rate) l

/-- Modelled from the spec: the kinetics step of a hydraulic timestep (§4.4):
every pipe segment is integrated with the pipe-class rate of its pipe and every
tank with the tank-class rate; an `EvaluationError` in any segment or tank
aborts the step (§7). -/
def kineticsStep (net : MsxNetwork) (dt : ℚ) (rate : ℕ → ℚ → Option ℚ)
    (tankRate : ℕ → ℚ → Option ℚ) : Option MsxNetwork :=
  if (∀ i ∈ Finset.range net.nP, (reactPipe dt (rate i) (net.segs i)).isSome = true) ∧
     (∀ n ∈ net.nodes, net.isTank n = true → (tankRate n (net.tconc n)).isSome = true) then
    some { net with
      segs := fun i => (reactPipe dt (rate i) (net.segs i)).getD (net.segs i),
      tconc := fun n =>
        if net.isTank n = true ∧ n ∈ net.nodes then
          ((tankRate n (net.tconc n)).map fun r => net.tconc n + dt * r).getD (net.tconc n)
        else net.tconc n }
  else none

/-- The `lead_ppm` model, transcribed field by field from the serialized model
file in the repository (the source of truth for claims about this model);
0.117 and 1e-08 are the rationals denoted by the file's decimal literals. -/
def lead_ppm : MsxModel where
  wntr_version := ""
  name := "lead_ppm"
  title := "Lead Plumbosolvency Model (from Burkhardt et al 2020)"
  description := "Parameters for EPA HPS Simulator Model"
  references := ["J. B. Burkhardt, et al. (2020) Framework for Modeling Lead in Premise Plumbing Systems Using EPANET. J Water Resour Plan Manag. 146(12). https://doi.org/10.1061/(asce)wr.1943-5452.0001304 PMID:33627937"]
  reaction_system :=
    { species := [("PB2", ⟨SpeciesType.bulk, "ug", none, none, "dissolved lead (Pb)"⟩)],
      constants := [("M", ⟨117/1000, "ug * m^(-2) * s^(-1)", "Desorption rate (ug/m^2/s)"⟩),
        ("E", ⟨140, "ug/L", "saturation/plumbosolvency level (ug/L)"⟩)],
      parameters := [("F", ⟨0, "determines which pipes have reactions"⟩)],
      terms := [],
      pipe_reactions := [("PB2", ⟨ExpressionType.rate, "F * Av * M * (E - PB2) / E"⟩)],
      tank_reactions := [("PB2", ⟨ExpressionType.rate, "0"⟩)] }
  network_data :=
    { initial_quality := [("PB2", ⟨0, [], []⟩)],
      parameter_values := [("F", ⟨[], []⟩)],
      sources := [],
      patterns := [] }
  options :=
    { timestep := 1, area_units := "M2", rate_units := "SEC", solver := "RK5",
      coupling := "NONE", rtol := 1/100000000, atol := 1/100000000,
      compiler := "NONE", segments := 5000, peclet := 1000,
      report := ⟨none, none, [("PB2", "YES")], [("PB2", 5)], "all", "all"⟩ }

/-- The pipe-class rate expression of the `lead_ppm` model,
`F * Av * M * (E - PB2) / E`, as a syntax tree (products associate to the
left, as the textual form parses). -/
def leadPipeRateExpr : Expr :=
  .div (.mul (.mul (.mul (.var "F") (.var "Av")) (.var "M"))
    (.sub (.var "E") (.var "PB2"))) (.var "E")

/-- The tank-class rate expression of the `lead_ppm` model, `0`. -/
def leadTankRateExpr : Expr := .num 0

/-- The evaluation environment for the `lead_ppm` reactions, in the spec's
resolution order (§4.1): reserved geometry variable `Av`, then the species
concentration, then the model's constants, then the resolved parameter `F`. -/
def leadEnv (fval av c : ℚ) : String → Option ℚ := fun s =>
  if s = "Av" then some av
  else if s = "PB2" then some c
  else
    match lead_ppm.reaction_system.constants.lookup s with
    | some k => some k.value
    | none => if s = "F" then some fval else none

/-- The resolved value of parameter `F` of the `lead_ppm` model at a pipe,
falling back to 0 only on the build-time-excluded unknown-parameter case. -/
def leadF (loc : String) : ℚ :=
  (resolve lead_ppm.reaction_system lead_ppm.network_data "F" loc LocationClass.pipe).getD 0

/-- Modelled from the spec: one full hydraulic step of the `lead_ppm` model
bound to a network (§2 data flow): transport — signed flows, Péclet regime
and all — then kinetics with the model's pipe and tank rate expressions,
`F` resolved per pipe from the model's network data. -/
def leadStep (net : MsxNetwork) (flow : ℕ → ℚ) (maxSegs : ℕ) (pecletTh : ℚ)
    (pec : ℕ → ℚ) (wdiff : ℕ → List ℚ) (dt : ℚ) (av : ℕ → ℚ)
    (pipeName : ℕ → String) : Option MsxNetwork :=
  kineticsStep (transportStep net flow maxSegs pecletTh pec wdiff) dt
    (fun i c => leadPipeRateExpr.eval (leadEnv (leadF (pipeName i)) (av i) c))
    (fun _ c => leadTankRateExpr.eval (leadEnv 0 0 c))

/-- Iterated `lead_ppm` simulation. -/
def leadSimulate (net : MsxNetwork) (flows : ℕ → ℕ → ℚ) (maxSegs : ℕ)
    (pecletTh : ℚ) (pecs : ℕ → ℕ → ℚ) (wdiffs : ℕ → ℕ → List ℚ) (dt : ℚ)
    (av : ℕ → ℚ) (pipeName : ℕ → String) : ℕ → Option MsxNetwork
  | 0 => some net
  | n + 1 => (leadSimulate net flows maxSegs pecletTh pecs wdiffs dt av pipeName n).bind
      fun s => leadStep s (flows n) maxSegs pecletTh (pecs n) (wdiffs n) dt av pipeName

/-- Every concentration of the network state is zero: every segment of every
pipe and every node concentration. -/
def AllZero (net : MsxNetwork) : Prop :=
  (∀ i ∈ Finset.range net.nP, ∀ s ∈ net.segs i, s.conc = 0) ∧
  (∀ n ∈ net.nodes, net.tconc n = 0)

/-- Modelled from the spec: the concentration of the water in a pipe reacting
under the `lead_ppm` pipe expression with `F` forced to 1 by a per-pipe
override (§8 worked scenario): each integration substep of length `h` advances
the concentration by `h` times the evaluated rate. -/
def outletSeq (av h c0 : ℚ) : ℕ → ℚ
  | 0 => c0
  | n + 1 =>
    let c := outletSeq av h c0 n
    c + h * (leadPipeRateExpr.eval (leadEnv
      ((resolve lead_ppm.reaction_system
        { lead_ppm.network_data with parameter_values := [("F", ⟨[("P1", 1)], []⟩)] }
        "F" "P1" LocationClass.pipe).getD 0) av c)).getD 0

/-- The effective rate constant of the `lead_ppm` pipe reaction at a given
surface-area-to-volume ratio: `Av * M / E`. -/
def leadRateK (av : ℚ) : ℚ := av * (117/1000) / 140

/-- Insert a file into the catalog under its derived name, replacing any entry
the name already has (later discoveries win). -/
def catalogInsert (cat : List (String × α)) (stem : String) (v : α) : List (String × α) :=
  (cat.filter fun p => p.1 ≠ stem) ++ [(stem, v)]

/-- Modelled from the spec: the model catalog (§4.5): index the discoverable
files of the search roots, in root traversal order, by derived name (file
stem); when a name collides the entry encountered last wins. -/
def buildCatalog (roots : List (List (String × α))) : List (String × α) :=
  roots.flatten.foldl (fun cat f => catalogInsert cat f.1 f.2) []

/-- Catalog lookup by model name. -/
def get_model (cat : List (String × α)) (name : String) : Option α :=
  cat.lookup name

/-- The outcome recorded for one scenario of the batch pipe-break / segment-break
analyses: the impacted-junction list on success, `None` when the simulation
raised (the notebooks' `try/except/finally`). -/
def outcome (r : Except String (List String)) : Option (List String) :=
  match r with
  | .ok l => some l
  | .error _ => none

/-- The batch loop of the pipe-break and segment-break tutorials: for each
scenario id in order, simulate it and record its outcome in
`analysis_results`; the `finally` clause records every scenario, so a raised
exception never stops the loop. -/
def runAnalysis (ids : List String) (simOf : String → Except String (List String)) :
    List (String × Option (List String)) :=
  ids.foldl (fun acc pid => acc ++ [(pid, outcome (simOf pid))]) []

/-- The junctions among `juncts` whose pressure falls strictly below `pmin` at
some reported time at or after `startTime` — the notebooks'
`pressure.loc[start_time::, nzd_junct]` followed by `(pressure < pmin).any()`. -/
def belowPmin (p : String → ℚ → ℚ) (times : List ℚ) (startTime pmin : ℚ)
    (juncts : List String) : List String :=
  juncts.filter fun j =>
    (times.filter fun t => decide (startTime ≤ t)).any fun t => decide (p j t < pmin)

/-- The impacted junctions of one break scenario: the junctions below minimum
pressure in the break simulation minus those already below it in the baseline
simulation — the notebooks'
`set(sim_pressure_below_pmin) - set(normal_pressure_below_pmin)`. -/
def impactedJunctions (simP normalP : String → ℚ → ℚ) (times : List ℚ)
    (startTime pmin : ℚ) (nzd : List String) : List String :=
  (belowPmin simP times startTime pmin nzd).filter fun j =>
    !((belowPmin normalP times startTime pmin nzd).contains j)

/-- Key–value lists related entrywise: same keys in the same positions, values
related by `R`. -/
def EntryRel (R : α → β → Prop) (p : String × α) (q : String × β) : Prop :=
  p.1 = q.1 ∧ R p.2 q.2

/-- `l₁` is a reordering of the map `l₂` with values related by `R`: some
entrywise-related list of `l₁` is a permutation of `l₂`. -/
def MapRel (R : α → α → Prop) (l₁ l₂ : List (String × α)) : Prop :=
  ∃ mid, List.Forall₂ (EntryRel R) l₁ mid ∧ mid.Perm l₂

/-- The keys of an association list. -/
def keysOf (l : List (String × α)) : List String := l.map Prod.fst

/-- A serialized map is valid when its keys are distinct. -/
def NodupKeys (l : List (String × α)) : Prop := (keysOf l).Nodup

/-- An initial-quality entry with its inner node and link maps reordered. -/
def IqPerm (a b : InitialQuality) : Prop :=
  a.global_value = b.global_value ∧ a.node_values.Perm b.node_values ∧
    a.link_values.Perm b.link_values

/-- A parameter-values entry with its inner pipe and tank maps reordered. -/
def PvPerm (a b : ParameterValues) : Prop :=
  a.pipe_values.Perm b.pipe_values ∧ a.tank_values.Perm b.tank_values

/-- A reaction system with each of its serialized maps reordered: the entry
sets are unchanged, only their order differs. -/
def RsPerm (a b : ReactionSystem) : Prop :=
  a.species.Perm b.species ∧ a.constants.Perm b.constants ∧
  a.parameters.Perm b.parameters ∧ a.terms.Perm b.terms ∧
  a.pipe_reactions.Perm b.pipe_reactions ∧ a.tank_reactions.Perm b.tank_reactions

/-- Network data with every serialized map reordered, including the maps nested
inside initial-quality and parameter-values entries. -/
def NdPerm (a b : NetworkData) : Prop :=
  MapRel IqPerm a.initial_quality b.initial_quality ∧
  MapRel PvPerm a.parameter_values b.parameter_values ∧
  a.sources.Perm b.sources ∧ a.patterns.Perm b.patterns

/-- Options with the report selector maps reordered. -/
def OptPerm (a b : MsxOptions) : Prop :=
  a.timestep = b.timestep ∧ a.area_units = b.area_units ∧ a.rate_units = b.rate_units ∧
  a.solver = b.solver ∧ a.coupling = b.coupling ∧ a.rtol = b.rtol ∧ a.atol = b.atol ∧
  a.compiler = b.compiler ∧ a.segments = b.segments ∧ a.peclet = b.peclet ∧
  a.report.pagesize = b.report.pagesize ∧ a.report.report_filename = b.report.report_filename ∧
  a.report.species.Perm b.report.species ∧
  a.report.species_precision.Perm b.report.species_precision ∧
  a.report.nodes = b.report.nodes ∧ a.report.links = b.report.links

/-- A model whose serialized maps have been reordered, nothing else changed. -/
def ModelPerm (a b : MsxModel) : Prop :=
  a.wntr_version = b.wntr_version ∧ a.name = b.name ∧ a.title = b.title ∧
  a.description = b.description ∧ a.references = b.references ∧
  RsPerm a.reaction_system b.reaction_system ∧
  NdPerm a.network_data b.network_data ∧ OptPerm a.options b.options

/-- Values of two optional results related by `R`. -/
def OptionRel (R : α → α → Prop) : Option α → Option α → Prop
  | none, none => True
  | some a, some b => R a b
  | _, _ => False

/-- Two association lists are equivalent as maps: every key looks up to the
same value. -/
def MapEquiv (l₁ l₂ : List (String × α)) : Prop :=
  ∀ k, l₁.lookup k = l₂.lookup k

/-- Initial-quality entries equivalent as data: equal global value, inner maps
equivalent as maps. -/
def IqEquiv (a b : InitialQuality) : Prop :=
  a.global_value = b.global_value ∧ MapEquiv a.node_values b.node_values ∧
    MapEquiv a.link_values b.link_values

/-- Parameter-values entries equivalent as data. -/
def PvEquiv (a b : ParameterValues) : Prop :=
  MapEquiv a.pipe_values b.pipe_values ∧ MapEquiv a.tank_values b.tank_values

/-- Reaction systems equivalent as data: every name resolves to the same
species, constant, parameter, term and reactions. -/
def RsEquiv (a b : ReactionSystem) : Prop :=
  MapEquiv a.species b.species ∧ MapEquiv a.constants b.constants ∧
  MapEquiv a.parameters b.parameters ∧ MapEquiv a.terms b.terms ∧
  MapEquiv a.pipe_reactions b.pipe_reactions ∧ MapEquiv a.tank_reactions b.tank_reactions

/-- Network data equivalent as data, down through the nested maps. -/
def NdEquiv (a b : NetworkData) : Prop :=
  (∀ k, OptionRel IqEquiv (a.initial_quality.lookup k) (b.initial_quality.lookup k)) ∧
  (∀ k, OptionRel PvEquiv (a.parameter_values.lookup k) (b.parameter_values.lookup k)) ∧
  MapEquiv a.sources b.sources ∧ MapEquiv a.patterns b.patterns

/-- Options equivalent as data: equal scalar fields, report selector maps
equivalent as maps. -/
def OptEquiv (a b : MsxOptions) : Prop :=
  a.timestep = b.timestep ∧ a.area_units = b.area_units ∧ a.rate_units = b.rate_units ∧
  a.solver = b.solver ∧ a.coupling = b.coupling ∧ a.rtol = b.rtol ∧ a.atol = b.atol ∧
  a.compiler = b.compiler ∧ a.segments = b.segments ∧ a.peclet = b.peclet ∧
  a.report.pagesize = b.report.pagesize ∧ a.report.report_filename = b.report.report_filename ∧
  MapEquiv a.report.species b.report.species ∧
  MapEquiv a.report.species_precision b.report.species_precision ∧
  a.report.nodes = b.report.nodes ∧ a.report.links = b.report.links

/-- Models equivalent as data: equal header fields, options, reaction system
and network data equivalent map by map. -/
def ModelEquiv (a b : MsxModel) : Prop :=
  a.wntr_version = b.wntr_version ∧ a.name = b.name ∧ a.title = b.title ∧
  a.description = b.description ∧ a.references = b.references ∧
  RsEquiv a.reaction_system b.reaction_system ∧
  NdEquiv a.network_data b.network_data ∧ OptEquiv a.options b.options

/-- A valid model: every serialized map, including the nested ones, has
distinct keys. -/
def ModelValid (m : MsxModel) : Prop :=
  NodupKeys m.reaction_system.species ∧ NodupKeys m.reaction_system.constants ∧
  NodupKeys m.reaction_system.parameters ∧ NodupKeys m.reaction_system.terms ∧
  NodupKeys m.reaction_system.pipe_reactions ∧ NodupKeys m.reaction_system.tank_reactions ∧
  NodupKeys m.network_data.initial_quality ∧
  (∀ p ∈ m.network_data.initial_quality, NodupKeys p.2.node_values ∧ NodupKeys p.2.link_values) ∧
  NodupKeys m.network_data.parameter_values ∧
  (∀ p ∈ m.network_data.parameter_values, NodupKeys p.2.pipe_values ∧ NodupKeys p.2.tank_values) ∧
  NodupKeys m.network_data.sources ∧ NodupKeys m.network_data.patterns ∧
  NodupKeys m.options.report.species ∧ NodupKeys m.options.report.species_precision

/-- A three-node test network — tank 0 feeds junction 1 feeds tank 2 through
two pipes of one segment each — used to evaluate the transport theorems on
concrete data; `ctank` is tank 0's concentration and `cseg` the pipes'. -/
def testNet (ctank cseg : ℚ) : MsxNetwork where
  nP := 2
  src := fun i => if i = 0 then 0 else 1
  dst := fun i => if i = 0 then 1 else 2
  fdir := fun _ => true
  segs := fun _ => [⟨2, cseg⟩]
  nodes := {0, 1, 2}
  isTank := fun n => n != 1
  tvol := fun _ => 10
  tconc := fun n => if n = 0 then ctank else 0

/-! Helper lemmas about association lists, permutations and decoding. -/

theorem nodupKeys_of_perm {α : Type} {l₁ l₂ : List (String × α)}
    (h : l₁.Perm l₂) (nd : NodupKeys l₂) : NodupKeys l₁ :=
  (h.map Prod.fst).nodup_iff.mpr nd

theorem lookup_of_perm {α : Type} {l₁ l₂ : List (String × α)}
    (h : l₁.Perm l₂) (nd : NodupKeys l₂) (k : String) :
    l₁.lookup k = l₂.lookup k := by
  induction h with
  | nil => rfl
  | cons x h ih =>
    have nd' : NodupKeys (x :: _) := nd
    simp only [NodupKeys, keysOf, List.map_cons, List.nodup_cons] at nd'
    simp only [List.lookup]
    cases hk : k == x.1 with
    | true => rfl
    | false => exact ih nd'.2
  | swap x y l =>
    have hxy : x.1 ≠ y.1 := by
      have h' := nd
      simp only [NodupKeys, keysOf, List.map_cons, List.nodup_cons, List.mem_cons] at h'
      exact fun h => h'.1 (Or.inl h)
    simp only [List.lookup]
    cases hky : k == y.1 with
    | true =>
      cases hkx : k == x.1 with
      | true => exact absurd ((eq_of_beq hkx).symm.trans (eq_of_beq hky)) hxy
      | false => rfl
    | false =>
      cases hkx : k == x.1 with
      | true => rfl
      | false => rfl
  | trans h₁ h₂ ih₁ ih₂ =>
    exact (ih₁ (nodupKeys_of_perm h₂ nd)).trans (ih₂ nd)

theorem mapEquiv_of_perm {α : Type} {l₁ l₂ : List (String × α)}
    (h : l₁.Perm l₂) (nd : NodupKeys l₂) : MapEquiv l₁ l₂ :=
  fun k => lookup_of_perm h nd k

theorem optionRel_lookup_of_forall₂ {α : Type} {R : α → α → Prop}
    {l₁ l₂ : List (String × α)} (h : List.Forall₂ (EntryRel R) l₁ l₂) (k : String) :
    OptionRel R (l₁.lookup k) (l₂.lookup k) := by
  induction h with
  | nil => trivial
  | cons hab h ih =>
    obtain ⟨hk, hv⟩ := hab
    simp only [List.lookup, hk]
    cases hkey : k == _ with
    | true => exact hv
    | false => exact ih

theorem optionRel_mono {α : Type} {R S : α → α → Prop}
    (h : ∀ a b, R a b → S a b) {o₁ o₂ : Option α} (hr : OptionRel R o₁ o₂) :
    OptionRel S o₁ o₂ := by
  cases o₁ <;> cases o₂ <;> simp only [OptionRel] at hr ⊢
  exact h _ _ hr

theorem keysOf_forall₂ {α : Type} {R : α → α → Prop} {l₁ l₂ : List (String × α)}
    (h : List.Forall₂ (EntryRel R) l₁ l₂) : keysOf l₁ = keysOf l₂ := by
  induction h with
  | nil => rfl
  | cons hab h ih => simp only [keysOf, List.map_cons] at ih ⊢; rw [hab.1, ih]

theorem optionRel_lookup_of_mapRel {α : Type} {R : α → α → Prop}
    {l₁ l₂ : List (String × α)} (h : MapRel R l₁ l₂) (nd : NodupKeys l₂) (k : String) :
    OptionRel R (l₁.lookup k) (l₂.lookup k) := by
  obtain ⟨mid, hf, hp⟩ := h
  have := optionRel_lookup_of_forall₂ hf k
  rwa [lookup_of_perm hp nd k] at this

theorem mapRel_refl {α : Type} {R : α → α → Prop} (hR : ∀ a, R a a)
    (l : List (String × α)) : MapRel R l l :=
  ⟨l, List.forall₂_same.mpr (fun a _ => ⟨rfl, hR a.2⟩), List.Perm.refl l⟩

theorem decodeList_map {α β : Type} (dec : β → Option α) (enc : α → β)
    (l : List α) (h : ∀ x ∈ l, dec (enc x) = some x) :
    decodeList dec (l.map enc) = some l := by
  induction l with
  | nil => rfl
  | cons a l ih =>
    simp only [List.map_cons, decodeList, h a (List.mem_cons_self a l)]
    rw [ih fun x hx => h x (List.mem_cons_of_mem a hx)]
    rfl

theorem asOptNum_ofOptNum (o : Option ℚ) : J.asOptNum (J.ofOptNum o) = some o := by
  cases o <;> rfl

theorem asOptStr_ofOptStr (o : Option String) : J.asOptStr (J.ofOptStr o) = some o := by
  cases o <;> rfl

theorem speciesType_roundtrip (t : SpeciesType) : SpeciesType.ofStr t.toStr = some t := by
  cases t <;> rfl

theorem expressionType_roundtrip (t : ExpressionType) : ExpressionType.ofStr t.toStr = some t := by
  cases t <;> rfl

theorem sourceKind_roundtrip (k : SourceKind) : SourceKind.ofStr k.toStr = some k := by
  cases k <;> rfl

theorem species_roundtrip (p : String × Species) : speciesOfJson (speciesToJson p) = some p := by
  obtain ⟨n, st, u, a, r, note⟩ := p
  cases st <;> cases a <;> cases r <;> rfl

theorem constant_roundtrip (p : String × Constant) : constantOfJson (constantToJson p) = some p := by
  obtain ⟨n, v, u, note⟩ := p
  rfl

theorem parameter_roundtrip (p : String × Parameter) : parameterOfJson (parameterToJson p) = some p := by
  obtain ⟨n, g, note⟩ := p
  rfl

theorem term_roundtrip (p : String × String) : termOfJson (termToJson p) = some p := rfl

theorem reaction_roundtrip (p : String × Reaction) : reactionOfJson (reactionToJson p) = some p := by
  obtain ⟨n, et, e⟩ := p
  cases et <;> rfl

theorem numMap_roundtrip (l : List (String × ℚ)) : numMapOfJson (numMapToJson l) = some l := by
  show decodeList (fun p => (J.asNum p.2).map fun q => (p.1, q))
    (l.map fun p => (p.1, J.num p.2)) = some l
  apply decodeList_map
  intro x _
  rfl

theorem strMap_roundtrip (l : List (String × String)) : strMapOfJson (strMapToJson l) = some l := by
  show decodeList (fun p => (J.asStr p.2).map fun s => (p.1, s))
    (l.map fun p => (p.1, J.str p.2)) = some l
  apply decodeList_map
  intro x _
  rfl

theorem initialQuality_roundtrip (iq : InitialQuality) :
    initialQualityOfJson (initialQualityToJson iq) = some iq := by
  obtain ⟨g, nv, lv⟩ := iq
  have h : initialQualityOfJson (initialQualityToJson ⟨g, nv, lv⟩) =
      (numMapOfJson (numMapToJson nv)).bind fun nv' =>
        (numMapOfJson (numMapToJson lv)).bind fun lv' =>
          some (⟨g, nv', lv'⟩ : InitialQuality) := rfl
  rw [h, numMap_roundtrip nv, numMap_roundtrip lv]
  rfl

theorem parameterValues_roundtrip (pv : ParameterValues) :
    parameterValuesOfJson (parameterValuesToJson pv) = some pv := by
  obtain ⟨p, t⟩ := pv
  have h : parameterValuesOfJson (parameterValuesToJson ⟨p, t⟩) =
      (numMapOfJson (numMapToJson p)).bind fun p' =>
        (numMapOfJson (numMapToJson t)).bind fun t' =>
          some (⟨p', t'⟩ : ParameterValues) := rfl
  rw [h, numMap_roundtrip p, numMap_roundtrip t]
  rfl

theorem source_roundtrip (s : Source) : sourceOfJson (sourceToJson s) = some s := by
  obtain ⟨sp, st, k, pat⟩ := s
  cases k <;> cases pat <;> rfl

theorem reactionSystem_roundtrip (rs : ReactionSystem) :
    reactionSystemOfJson (reactionSystemToJson rs) = some rs := by
  obtain ⟨sp, co, pa, te, pr, tr⟩ := rs
  have h : reactionSystemOfJson (reactionSystemToJson ⟨sp, co, pa, te, pr, tr⟩) =
      (decodeList speciesOfJson (sp.map speciesToJson)).bind fun sp' =>
      (decodeList constantOfJson (co.map constantToJson)).bind fun co' =>
      (decodeList parameterOfJson (pa.map parameterToJson)).bind fun pa' =>
      (decodeList termOfJson (te.map termToJson)).bind fun te' =>
      (decodeList reactionOfJson (pr.map reactionToJson)).bind fun pr' =>
      (decodeList reactionOfJson (tr.map reactionToJson)).bind fun tr' =>
      some (⟨sp', co', pa', te', pr', tr'⟩ : ReactionSystem) := rfl
  rw [h, decodeList_map speciesOfJson speciesToJson sp fun x _ => species_roundtrip x,
    decodeList_map constantOfJson constantToJson co fun x _ => constant_roundtrip x,
    decodeList_map parameterOfJson parameterToJson pa fun x _ => parameter_roundtrip x,
    decodeList_map termOfJson termToJson te fun x _ => term_roundtrip x,
    decodeList_map reactionOfJson reactionToJson pr fun x _ => reaction_roundtrip x,
    decodeList_map reactionOfJson reactionToJson tr fun x _ => reaction_roundtrip x]
  rfl

theorem networkData_roundtrip (nd : NetworkData) :
    networkDataOfJson (networkDataToJson nd) = some nd := by
  obtain ⟨iq, pv, src, pat⟩ := nd
  have h : networkDataOfJson (networkDataToJson ⟨iq, pv, src, pat⟩) =
      (decodeList (fun p => (initialQualityOfJson p.2).map fun v => (p.1, v))
        (iq.map fun p => (p.1, initialQualityToJson p.2))).bind fun iq' =>
      (decodeList (fun p => (parameterValuesOfJson p.2).map fun v => (p.1, v))
        (pv.map fun p => (p.1, parameterValuesToJson p.2))).bind fun pv' =>
      (decodeList (fun p => (sourceOfJson p.2).map fun v => (p.1, v))
        (src.map fun p => (p.1, sourceToJson p.2))).bind fun src' =>
      (decodeList (fun p => (p.2.asArr.bind (decodeList J.asNum)).map fun v => (p.1, v))
        (pat.map fun p => (p.1, J.arr (p.2.map J.num)))).bind fun pat' =>
      some (⟨iq', pv', src', pat'⟩ : NetworkData) := rfl
  have hiq : decodeList (fun p => (initialQualityOfJson p.2).map fun v => (p.1, v))
      (iq.map fun p => (p.1, initialQualityToJson p.2)) = some iq :=
    decodeList_map _ _ iq fun x _ => by
      show (initialQualityOfJson (initialQualityToJson x.2)).map (fun v => (x.1, v)) = some x
      rw [initialQuality_roundtrip x.2]
      rfl
  have hpv : decodeList (fun p => (parameterValuesOfJson p.2).map fun v => (p.1, v))
      (pv.map fun p => (p.1, parameterValuesToJson p.2)) = some pv :=
    decodeList_map _ _ pv fun x _ => by
      show (parameterValuesOfJson (parameterValuesToJson x.2)).map (fun v => (x.1, v)) = some x
      rw [parameterValues_roundtrip x.2]
      rfl
  have hsrc : decodeList (fun p => (sourceOfJson p.2).map fun v => (p.1, v))
      (src.map fun p => (p.1, sourceToJson p.2)) = some src :=
    decodeList_map _ _ src fun x _ => by
      show (sourceOfJson (sourceToJson x.2)).map (fun v => (x.1, v)) = some x
      rw [source_roundtrip x.2]
      rfl
  have hpat : decodeList (fun p => (p.2.asArr.bind (decodeList J.asNum)).map fun v => (p.1, v))
      (pat.map fun p => (p.1, J.arr (p.2.map J.num))) = some pat :=
    decodeList_map _ _ pat fun x _ => by
      show (decodeList J.asNum (x.2.map J.num)).map (fun v => (x.1, v)) = some x
      rw [decodeList_map J.asNum J.num x.2 fun y _ => rfl]
      rfl
  rw [h, hiq, hpv, hsrc, hpat]
  rfl

theorem report_roundtrip (r : ReportOptions) : reportOfJson (reportToJson r) = some r := by
  obtain ⟨ps, fn, sp, prec, nodes, links⟩ := r
  have h : reportOfJson (reportToJson ⟨ps, fn, sp, prec, nodes, links⟩) =
      (J.asOptNum (J.ofOptNum ps)).bind fun ps' =>
      (J.asOptStr (J.ofOptStr fn)).bind fun fn' =>
      (strMapOfJson (strMapToJson sp)).bind fun sp' =>
      (numMapOfJson (numMapToJson prec)).bind fun pr' =>
      some (⟨ps', fn', sp', pr', nodes, links⟩ : ReportOptions) := rfl
  rw [h, asOptNum_ofOptNum, asOptStr_ofOptStr, strMap_roundtrip sp, numMap_roundtrip prec]
  rfl

theorem options_roundtrip (o : MsxOptions) : optionsOfJson (optionsToJson o) = some o := by
  obtain ⟨ts, au, ru, so, cp, rt, at_, cm, sg, pe, rep⟩ := o
  have h : optionsOfJson (optionsToJson ⟨ts, au, ru, so, cp, rt, at_, cm, sg, pe, rep⟩) =
      (reportOfJson (reportToJson rep)).bind fun rep' =>
      some (⟨ts, au, ru, so, cp, rt, at_, cm, sg, pe, rep'⟩ : MsxOptions) := rfl
  rw [h, report_roundtrip rep]
  rfl

theorem modelToJson_roundtrip (m : MsxModel) : read_json (modelToJson m) = some m := by
  obtain ⟨ver, name, title, desc, refs, rs, nd, opts⟩ := m
  have h : read_json (modelToJson ⟨ver, name, title, desc, refs, rs, nd, opts⟩) =
      (decodeList J.asStr (refs.map J.str)).bind fun refs' =>
      (reactionSystemOfJson (reactionSystemToJson rs)).bind fun rs' =>
      (networkDataOfJson (networkDataToJson nd)).bind fun nd' =>
      (optionsOfJson (optionsToJson opts)).bind fun opts' =>
      some (⟨ver, name, title, desc, refs', rs', nd', opts'⟩ : MsxModel) := rfl
  rw [h, decodeList_map J.asStr J.str refs fun x _ => rfl, reactionSystem_roundtrip rs,
    networkData_roundtrip nd, options_roundtrip opts]
  rfl

theorem lookup_mem {α : Type} {l : List (String × α)} {k : String} {b : α}
    (h : l.lookup k = some b) : (k, b) ∈ l := by
  induction l with
  | nil => simp [List.lookup] at h
  | cons p l ih =>
    simp only [List.lookup] at h
    split at h
    · next heq =>
      injection h with h'
      subst h'
      rw [eq_of_beq heq]
      exact List.mem_cons_self p l
    · next => exact List.mem_cons_of_mem p (ih h)

theorem optionRel_weaken_some {α : Type} {R S : α → α → Prop} {o₁ o₂ : Option α}
    (hr : OptionRel R o₁ o₂) (h : ∀ b, o₂ = some b → ∀ a, R a b → S a b) :
    OptionRel S o₁ o₂ := by
  cases o₁ <;> cases o₂ <;> simp only [OptionRel] at hr ⊢
  exact h _ rfl _ hr

theorem iqEquiv_of_iqPerm {a b : InitialQuality} (h : IqPerm a b)
    (nd₁ : NodupKeys b.node_values) (nd₂ : NodupKeys b.link_values) : IqEquiv a b :=
  ⟨h.1, mapEquiv_of_perm h.2.1 nd₁, mapEquiv_of_perm h.2.2 nd₂⟩

theorem pvEquiv_of_pvPerm {a b : ParameterValues} (h : PvPerm a b)
    (nd₁ : NodupKeys b.pipe_values) (nd₂ : NodupKeys b.tank_values) : PvEquiv a b :=
  ⟨mapEquiv_of_perm h.1 nd₁, mapEquiv_of_perm h.2 nd₂⟩

theorem modelEquiv_of_modelPerm {m' m : MsxModel} (hv : ModelValid m)
    (hp : ModelPerm m' m) : ModelEquiv m' m := by
  obtain ⟨h₁, h₂, h₃, h₄, h₅, hrs, hnd, hopt⟩ := hp
  obtain ⟨v₁, v₂, v₃, v₄, v₅, v₆, v₇, v₈, v₉, v₁₀, v₁₁, v₁₂, v₁₃, v₁₄⟩ := hv
  refine ⟨h₁, h₂, h₃, h₄, h₅, ?_, ?_, ?_⟩
  · exact ⟨mapEquiv_of_perm hrs.1 v₁, mapEquiv_of_perm hrs.2.1 v₂,
      mapEquiv_of_perm hrs.2.2.1 v₃, mapEquiv_of_perm hrs.2.2.2.1 v₄,
      mapEquiv_of_perm hrs.2.2.2.2.1 v₅, mapEquiv_of_perm hrs.2.2.2.2.2 v₆⟩
  · obtain ⟨hiq, hpv, hsrc, hpat⟩ := hnd
    refine ⟨?_, ?_, mapEquiv_of_perm hsrc v₁₁, mapEquiv_of_perm hpat v₁₂⟩
    · intro k
      refine optionRel_weaken_some (optionRel_lookup_of_mapRel hiq v₇ k) ?_
      intro b hb a hab
      have hmem := lookup_mem hb
      exact iqEquiv_of_iqPerm hab (v₈ (k, b) hmem).1 (v₈ (k, b) hmem).2
    · intro k
      refine optionRel_weaken_some (optionRel_lookup_of_mapRel hpv v₉ k) ?_
      intro b hb a hab
      have hmem := lookup_mem hb
      exact pvEquiv_of_pvPerm hab (v₁₀ (k, b) hmem).1 (v₁₀ (k, b) hmem).2
  · obtain ⟨o₁, o₂, o₃, o₄, o₅, o₆, o₇, o₈, o₉, o₁₀, o₁₁, o₁₂, o₁₃, o₁₄, o₁₅, o₁₆⟩ := hopt
    exact ⟨o₁, o₂, o₃, o₄, o₅, o₆, o₇, o₈, o₉, o₁₀, o₁₁, o₁₂,
      mapEquiv_of_perm o₁₃ v₁₃, mapEquiv_of_perm o₁₄ v₁₄, o₁₅, o₁₆⟩

theorem iqPerm_refl (a : InitialQuality) : IqPerm a a :=
  ⟨rfl, List.Perm.refl _, List.Perm.refl _⟩

theorem pvPerm_refl (a : ParameterValues) : PvPerm a a :=
  ⟨List.Perm.refl _, List.Perm.refl _⟩

theorem modelPerm_refl (m : MsxModel) : ModelPerm m m := by
  refine ⟨rfl, rfl, rfl, rfl, rfl, ?_, ?_, ?_⟩
  · exact ⟨List.Perm.refl _, List.Perm.refl _, List.Perm.refl _, List.Perm.refl _,
      List.Perm.refl _, List.Perm.refl _⟩
  · exact ⟨mapRel_refl iqPerm_refl _, mapRel_refl pvPerm_refl _,
      List.Perm.refl _, List.Perm.refl _⟩
  · exact ⟨rfl, rfl, rfl, rfl, rfl, rfl, rfl, rfl, rfl, rfl, rfl, rfl,
      List.Perm.refl _, List.Perm.refl _, rfl, rfl⟩

/-- C1: for every valid model (bound form), serializing with
`as_library = False` and then deserializing reproduces an equivalent
reaction system and network data: any reordering `m'` of the model's
serialized maps reads back exactly as written, and is equivalent to the
original map by map — species, constants, parameters, terms, reactions,
initial quality, parameter values, sources and patterns all look up to the
same values, independently of the ordering of the serialized maps. -/
theorem c1_roundtrip_bound (m m' : MsxModel) (hv : ModelValid m)
    (hp : ModelPerm m' m) :
    read_json (write_json m' false) = some m' ∧ ModelEquiv m' m :=
  ⟨modelToJson_roundtrip m', modelEquiv_of_modelPerm hv hp⟩

theorem c1_roundtrip_bound_witness :
    ModelValid lead_ppm ∧
      (read_json (write_json lead_ppm false) = some lead_ppm ∧
        ModelEquiv lead_ppm lead_ppm) :=
  have hv : ModelValid lead_ppm := by
    simp only [ModelValid, NodupKeys, keysOf]
    decide
  ⟨hv, c1_roundtrip_bound lead_ppm lead_ppm hv (modelPerm_refl lead_ppm)⟩

/-- C2: serializing any model with `as_library = True` and deserializing
yields the model with its reaction system intact and its network data forced
to the canonical empty value (global initial-quality values preserved, all
node-, link-, pipe- and tank-specific overrides, sources and patterns
dropped), while the `reaction_system` and `options` sections of the
serialized form are identical to those of the bound form. -/
theorem c2_roundtrip_library (m : MsxModel) :
    read_json (write_json m true) =
      some { m with network_data := m.network_data.asLibrary } ∧
    ((write_json m true).asObj.bind fun kvs => getField kvs "reaction_system") =
      ((write_json m false).asObj.bind fun kvs => getField kvs "reaction_system") ∧
    ((write_json m true).asObj.bind fun kvs => getField kvs "options") =
      ((write_json m false).asObj.bind fun kvs => getField kvs "options") :=
  ⟨modelToJson_roundtrip m.asLibrary, rfl, rfl⟩

/-- C5: for every declared parameter, location and location class, `resolve`
returns the per-location override when one is present in the class-relevant
map (`pipe_values` for pipe locations, `tank_values` for tank locations), and
otherwise the parameter's global default; consequently a parameter with no
overrides resolves to the same global value at every location of its class. -/
theorem c5_resolve_override_or_global (rs : ReactionSystem) (nd : NetworkData)
    (pname loc : String) (p : Parameter)
    (hp : rs.parameters.lookup pname = some p) :
    (∀ pv v, nd.parameter_values.lookup pname = some pv →
      pv.pipe_values.lookup loc = some v →
      resolve rs nd pname loc LocationClass.pipe = some v) ∧
    (∀ pv v, nd.parameter_values.lookup pname = some pv →
      pv.tank_values.lookup loc = some v →
      resolve rs nd pname loc LocationClass.tank = some v) ∧
    (∀ pv cls, nd.parameter_values.lookup pname = some pv →
      (match cls with
        | LocationClass.pipe => pv.pipe_values.lookup loc
        | LocationClass.tank => pv.tank_values.lookup loc) = none →
      resolve rs nd pname loc cls = some p.global_value) ∧
    (nd.parameter_values.lookup pname = none →
      ∀ cls, resolve rs nd pname loc cls = some p.global_value) ∧
    (∀ pv cls loc', nd.parameter_values.lookup pname = some pv →
      pv.pipe_values = [] → pv.tank_values = [] →
      resolve rs nd pname loc cls = resolve rs nd pname loc' cls) := by
  refine ⟨?_, ?_, ?_, ?_, ?_⟩
  · intro pv v hpv hv
    simp [resolve, hp, hpv, hv]
  · intro pv v hpv hv
    simp [resolve, hp, hpv, hv]
  · intro pv cls hpv hnone
    cases cls
    · have hnone' : pv.pipe_values.lookup loc = none := hnone
      simp [resolve, hp, hpv, hnone']
    · have hnone' : pv.tank_values.lookup loc = none := hnone
      simp [resolve, hp, hpv, hnone']
  · intro hnone cls
    cases cls <;> simp [resolve, hp, hnone]
  · intro pv cls loc' hpv hpe hte
    cases cls <;> simp [resolve, hp, hpv, hpe, hte]

theorem c5_resolve_override_or_global_witness :
    lead_ppm.reaction_system.parameters.lookup "F" =
        some (⟨0, "determines which pipes have reactions"⟩ : Parameter) ∧
      ((∀ pv v, lead_ppm.network_data.parameter_values.lookup "F" = some pv →
          pv.pipe_values.lookup "P1" = some v →
          resolve lead_ppm.reaction_system lead_ppm.network_data "F" "P1"
            LocationClass.pipe = some v) ∧
        (∀ pv v, lead_ppm.network_data.parameter_values.lookup "F" = some pv →
          pv.tank_values.lookup "P1" = some v →
          resolve lead_ppm.reaction_system lead_ppm.network_data "F" "P1"
            LocationClass.tank = some v) ∧
        (∀ pv cls, lead_ppm.network_data.parameter_values.lookup "F" = some pv →
          (match cls with
            | LocationClass.pipe => pv.pipe_values.lookup "P1"
            | LocationClass.tank => pv.tank_values.lookup "P1") = none →
          resolve lead_ppm.reaction_system lead_ppm.network_data "F" "P1" cls =
            some (0 : ℚ)) ∧
        (lead_ppm.network_data.parameter_values.lookup "F" = none →
          ∀ cls, resolve lead_ppm.reaction_system lead_ppm.network_data "F" "P1" cls =
            some (0 : ℚ)) ∧
        (∀ pv cls loc', lead_ppm.network_data.parameter_values.lookup "F" = some pv →
          pv.pipe_values = [] → pv.tank_values = [] →
          resolve lead_ppm.reaction_system lead_ppm.network_data "F" "P1" cls =
            resolve lead_ppm.reaction_system lead_ppm.network_data "F" loc' cls)) :=
  ⟨by decide,
    c5_resolve_override_or_global lead_ppm.reaction_system lead_ppm.network_data
      "F" "P1" ⟨0, "determines which pipes have reactions"⟩ (by decide)⟩

theorem catalogInsert_lookup {α : Type} (cat : List (String × α)) (k name : String) (v : α) :
    (catalogInsert cat k v).lookup name = if name == k then some v else cat.lookup name := by
  induction cat with
  | nil =>
    simp only [catalogInsert, List.filter_nil, List.nil_append, List.lookup]
    cases h : name == k <;> simp [h]
  | cons p cat ih =>
    by_cases hpk : p.1 = k
    · have h1 : catalogInsert (p :: cat) k v = catalogInsert cat k v := by
        simp [catalogInsert, List.filter_cons, hpk]
      rw [h1, ih]
      cases hnk : name == k with
      | true => rfl
      | false =>
        have hnp : (name == p.1) = false := by rw [hpk]; exact hnk
        simp only [List.lookup, hnp]
    · have hfil : decide (p.1 ≠ k) = true := by simp [hpk]
      simp only [catalogInsert, List.filter_cons, hfil, if_pos trivial, List.cons_append]
      cases hnp : name == p.1 with
      | true =>
        have hnk : (name == k) = false := by
          have : name = p.1 := eq_of_beq hnp
          simp [this, hpk]
        simp only [List.lookup, hnp, hnk]
        simp
      | false =>
        simp only [List.lookup, hnp]
        exact ih

theorem lookup_foldl_insert {α : Type} (files cat : List (String × α)) (name : String) :
    (files.foldl (fun c f => catalogInsert c f.1 f.2) cat).lookup name =
      ((files.reverse.find? fun p => name == p.1).map Prod.snd).or (cat.lookup name) := by
  induction files generalizing cat with
  | nil => simp
  | cons f fs ih =>
    simp only [List.foldl_cons, List.reverse_cons, ih, List.find?_append,
      catalogInsert_lookup]
    cases hf : fs.reverse.find? (fun p => name == p.1) with
    | some q => simp [Option.or]
    | none =>
      cases hfq : name == f.1 with
      | true => simp [List.find?, hfq, Option.or]
      | false => simp [List.find?, hfq, Option.or]

/-- C8: the model catalog indexes the discoverable files of its search roots by
derived name, and `get_model` returns exactly the entry carrying that name
that was encountered last in root traversal order — deterministically, for
every set of roots and every name; a collision across roots is therefore
always resolved in favour of the later root. -/
theorem c8_catalog_last_wins {α : Type} (roots : List (List (String × α))) (name : String) :
    get_model (buildCatalog roots) name =
      (roots.flatten.reverse.find? fun p => name == p.1).map Prod.snd := by
  have h := lookup_foldl_insert roots.flatten [] name
  simpa [get_model, buildCatalog] using h

theorem runAnalysis_eq_map (ids : List String)
    (simOf : String → Except String (List String)) :
    runAnalysis ids simOf = ids.map fun pid => (pid, outcome (simOf pid)) := by
  have h : ∀ (l : List String) (acc : List (String × Option (List String))),
      l.foldl (fun acc pid => acc ++ [(pid, outcome (simOf pid))]) acc =
        acc ++ l.map fun pid => (pid, outcome (simOf pid)) := by
    intro l
    induction l with
    | nil => simp
    | cons a l ih => intro acc; simp [ih]
  simpa [runAnalysis] using h ids []

theorem lookup_map_self {β : Type} (ids : List String) (g : String → β) (pid : String)
    (hmem : pid ∈ ids) :
    (ids.map fun i => (i, g i)).lookup pid = some (g pid) := by
  induction ids with
  | nil => cases hmem
  | cons a ids ih =>
    simp only [List.map_cons, List.lookup]
    cases ha : pid == a with
    | true => rw [eq_of_beq ha]
    | false =>
      apply ih
      rcases List.mem_cons.mp hmem with h | h
      · rw [h] at ha; simp at ha
      · exact h

/-- C9: in the batch pipe-break and segment-break analyses, every scenario id
ends with exactly one entry in the results mapping: the impacted-junction list
when its simulation succeeds, and `None` when it raises; a failure in one
scenario never prevents any other scenario from being simulated and
recorded, since each scenario's recorded outcome is exactly the outcome of
its own simulation. -/
theorem c9_batch_every_scenario_recorded (ids : List String)
    (simOf : String → Except String (List String)) (pid : String)
    (hnd : ids.Nodup) (hmem : pid ∈ ids) :
    (runAnalysis ids simOf).countP (fun p => p.1 == pid) = 1 ∧
    (runAnalysis ids simOf).lookup pid = some (outcome (simOf pid)) ∧
    (∀ l, simOf pid = .ok l → (runAnalysis ids simOf).lookup pid = some (some l)) ∧
    (∀ e, simOf pid = .error e → (runAnalysis ids simOf).lookup pid = some none) := by
  have hlk : (runAnalysis ids simOf).lookup pid = some (outcome (simOf pid)) := by
    rw [runAnalysis_eq_map]
    exact lookup_map_self ids _ pid hmem
  refine ⟨?_, hlk, ?_, ?_⟩
  · rw [runAnalysis_eq_map, List.countP_map]
    have : ((fun p => p.1 == pid) ∘ fun i => (i, outcome (simOf i))) = fun i => i == pid := rfl
    rw [this]
    exact List.count_eq_one_of_mem hnd hmem
  · intro l hl
    rw [hlk, hl]
    rfl
  · intro e he
    rw [hlk, he]
    rfl

theorem c9_batch_every_scenario_recorded_witness :
    (["P1", "P2"] : List String).Nodup ∧ "P2" ∈ (["P1", "P2"] : List String) ∧
    ((runAnalysis ["P1", "P2"] fun pid =>
        if pid = "P1" then Except.error "did not converge" else Except.ok ["J1"]).countP
      (fun p => p.1 == "P2") = 1 ∧
    (runAnalysis ["P1", "P2"] fun pid =>
        if pid = "P1" then Except.error "did not converge" else Except.ok ["J1"]).lookup "P2" =
      some (outcome ((fun pid =>
        if pid = "P1" then Except.error "did not converge" else Except.ok ["J1"]) "P2")) ∧
    (∀ l, (fun pid => if pid = "P1" then Except.error "did not converge"
        else Except.ok ["J1"]) "P2" = .ok l →
      (runAnalysis ["P1", "P2"] fun pid =>
        if pid = "P1" then Except.error "did not converge" else Except.ok ["J1"]).lookup "P2" =
        some (some l)) ∧
    (∀ e, (fun pid => if pid = "P1" then Except.error "did not converge"
        else Except.ok ["J1"]) "P2" = .error e →
      (runAnalysis ["P1", "P2"] fun pid =>
        if pid = "P1" then Except.error "did not converge" else Except.ok ["J1"]).lookup "P2" =
        some none)) :=
  ⟨by decide, by decide,
    c9_batch_every_scenario_recorded ["P1", "P2"]
      (fun pid => if pid = "P1" then Except.error "did not converge" else Except.ok ["J1"])
      "P2" (by decide) (by decide)⟩

/-- C10: the impacted-junction set of a break scenario is exactly the set of
non-zero-demand junctions whose pressure falls strictly below the minimum at
some reported time at or after the break start in the break simulation, minus
those already below the minimum in the baseline simulation; in particular a
junction below minimum pressure under normal operating conditions is never
reported as impacted. -/
theorem c10_impacted_junctions_characterization (simP normalP : String → ℚ → ℚ)
    (times : List ℚ) (startTime pmin : ℚ) (nzd : List String) :
    (∀ j, j ∈ impactedJunctions simP normalP times startTime pmin nzd ↔
      (j ∈ nzd ∧ (∃ t ∈ times, startTime ≤ t ∧ simP j t < pmin) ∧
        ¬ ∃ t ∈ times, startTime ≤ t ∧ normalP j t < pmin)) ∧
    (∀ j, (∃ t ∈ times, startTime ≤ t ∧ normalP j t < pmin) →
      j ∉ impactedJunctions simP normalP times startTime pmin nzd) := by
  have hmem : ∀ (p : String → ℚ → ℚ) (j : String),
      j ∈ belowPmin p times startTime pmin nzd ↔
        (j ∈ nzd ∧ ∃ t ∈ times, startTime ≤ t ∧ p j t < pmin) := by
    intro p j
    simp only [belowPmin, List.mem_filter, List.any_eq_true, List.mem_filter,
      decide_eq_true_eq]
    constructor
    · rintro ⟨hj, t, ⟨ht, hst⟩, hlt⟩
      exact ⟨hj, t, ht, hst, hlt⟩
    · rintro ⟨hj, t, ht, hst, hlt⟩
      exact ⟨hj, t, ⟨ht, hst⟩, hlt⟩
  have hchar : ∀ j, j ∈ impactedJunctions simP normalP times startTime pmin nzd ↔
      (j ∈ nzd ∧ (∃ t ∈ times, startTime ≤ t ∧ simP j t < pmin) ∧
        ¬ ∃ t ∈ times, startTime ≤ t ∧ normalP j t < pmin) := by
    intro j
    rw [impactedJunctions, List.mem_filter, hmem]
    constructor
    · rintro ⟨⟨hj, hsim⟩, hnc⟩
      refine ⟨hj, hsim, fun hnormal => ?_⟩
      have : j ∈ belowPmin normalP times startTime pmin nzd := (hmem normalP j).mpr ⟨hj, hnormal⟩
      rw [Bool.not_eq_true', ← Bool.not_eq_true] at hnc
      exact hnc (List.elem_iff.mpr this)
    · rintro ⟨hj, hsim, hnormal⟩
      refine ⟨⟨hj, hsim⟩, ?_⟩
      rw [Bool.not_eq_true', ← Bool.not_eq_true]
      intro hc
      exact hnormal (((hmem normalP j).mp (List.elem_iff.mp hc)).2)
  refine ⟨hchar, fun j hnormal hj => ?_⟩
  exact ((hchar j).mp hj).2.2 hnormal

theorem c10_impacted_junctions_characterization_witness :
    (∀ j, j ∈ impactedJunctions (fun _ t => 10 - t) (fun _ _ => 10) [0, 4] 2 (7/2)
        ["J1"] ↔
      (j ∈ ["J1"] ∧ (∃ t ∈ ([0, 4] : List ℚ), 2 ≤ t ∧ 10 - t < 7/2) ∧
        ¬ ∃ t ∈ ([0, 4] : List ℚ), 2 ≤ t ∧ (10 : ℚ) < 7/2)) ∧
    (∀ j, (∃ t ∈ ([0, 4] : List ℚ), 2 ≤ t ∧ (10 : ℚ) < 7/2) →
      j ∉ impactedJunctions (fun _ t => 10 - t) (fun _ _ => 10) [0, 4] 2 (7/2) ["J1"]) :=
  c10_impacted_junctions_characterization (fun _ t => 10 - t) (fun _ _ => 10) [0, 4] 2 (7/2) ["J1"]

theorem dfsCycle_of_walk (adj : String → List String) :
    ∀ (xs : List String) (v : String) (path : List String) (fuel : ℕ),
      List.Chain (fun a b => b ∈ adj a) v xs → xs.getLastD v ∈ path →
      xs.length < fuel → dfsCycle adj fuel path v = true := by
  intro xs
  induction xs with
  | nil =>
    intro v path fuel _ hlast hfuel
    cases fuel with
    | zero => cases hfuel
    | succ f =>
      rw [List.getLastD_nil] at hlast
      simp only [dfsCycle]
      rw [if_pos hlast]
  | cons w xs ih =>
    intro v path fuel hch hlast hfuel
    cases fuel with
    | zero => cases hfuel
    | succ f =>
      obtain ⟨hvw, hch'⟩ := List.chain_cons.mp hch
      simp only [dfsCycle]
      by_cases hv : v ∈ path
      · rw [if_pos hv]
      · rw [if_neg hv]
        rw [List.any_eq_true]
        refine ⟨w, hvw, ?_⟩
        refine ih w (v :: path) f hch' ?_ ?_
        · rw [List.getLastD_cons] at hlast
          exact List.mem_cons_of_mem v hlast
        · exact Nat.lt_of_succ_lt_succ hfuel

theorem termAdj_subset {sys : CoreSystem} {a b : String}
    (h : b ∈ termAdj sys a) : b ∈ termNames sys := by
  unfold termAdj at h
  cases hl : sys.terms.lookup a with
  | none => rw [hl] at h; cases h
  | some e =>
    rw [hl] at h
    have := List.of_mem_filter h
    exact List.elem_iff.mp (by simpa using this)

theorem chain_mem_termNames {sys : CoreSystem} :
    ∀ (xs : List String) (v : String),
      List.Chain (fun a b => b ∈ termAdj sys a) v xs → ∀ x ∈ xs, x ∈ termNames sys := by
  intro xs
  induction xs with
  | nil => intro v _ x hx; cases hx
  | cons w xs ih =>
    intro v hch x hx
    obtain ⟨hvw, hch'⟩ := List.chain_cons.mp hch
    rcases List.mem_cons.mp hx with h | h
    · rw [h]; exact termAdj_subset hvw
    · exact ih w hch' x h

theorem nodup_subset_length {α : Type} [DecidableEq α] {l l' : List α}
    (hn : l.Nodup) (hs : l ⊆ l') : l.length ≤ l'.length := by
  calc l.length = l.toFinset.card := (List.toFinset_card_of_nodup hn).symm
    _ ≤ l'.toFinset.card := Finset.card_le_card fun a ha => by
        simp only [List.mem_toFinset] at ha ⊢
        exact hs ha
    _ ≤ l'.length := l'.toFinset_card_le

/-- C4: for every model whose term reference graph contains a cycle, model
construction detects it and fails with `CyclicTermError` naming a term of the
cycle; the check runs at model-build time — evaluation (`Expr.eval`) returns
an optional value whose failure vocabulary has no cyclic-term case at all, so
the error can never arise during expression evaluation. -/
theorem c4_cyclic_terms_fail_build (sys : CoreSystem) (h : HasTermCycle sys) :
    ∃ c, buildModel sys = Except.error (BuildError.cyclicTerm c) := by
  obtain ⟨c, xs, hc, hne, hch, hlast, hnd⟩ := h
  cases xs with
  | nil => exact absurd rfl hne
  | cons w xs' =>
    have hfind : dfsCycle (termAdj sys) (sys.terms.length + 1) [] c = true := by
      obtain ⟨hcw, hch'⟩ := List.chain_cons.mp hch
      simp only [dfsCycle]
      rw [if_neg (List.not_mem_nil c), List.any_eq_true]
      refine ⟨w, hcw, ?_⟩
      apply dfsCycle_of_walk (termAdj sys) xs' w [c] sys.terms.length hch'
      · have h2 : xs'.getLastD w = c := (List.getLastD_cons c w xs').symm.trans hlast
        rw [h2]
        exact List.mem_singleton.mpr rfl
      · have hsub : (c :: (w :: xs').dropLast) ⊆ termNames sys := by
          intro x hx
          rcases List.mem_cons.mp hx with hxc | hxd
          · rw [hxc]; exact hc
          · exact chain_mem_termNames (w :: xs') c hch x
              ((w :: xs').dropLast_sublist.subset hxd)
        have hlen := nodup_subset_length hnd hsub
        have hlen' : (w :: xs').length ≤ (termNames sys).length := by
          have hdl : (c :: (w :: xs').dropLast).length = (w :: xs').length := by
            simp [List.length_dropLast]
          rw [hdl] at hlen
          exact hlen
        have hterm : (termNames sys).length = sys.terms.length := by
          simp [termNames]
        rw [hterm] at hlen'
        exact Nat.lt_of_succ_le (by simpa using hlen')
    have : ∃ c', findCycle sys = some c' := by
      have hsome : (findCycle sys).isSome = true := by
        rw [findCycle, List.find?_isSome]
        exact ⟨c, hc, hfind⟩
      exact Option.isSome_iff_exists.mp hsome
    obtain ⟨c', hc'⟩ := this
    refine ⟨c', ?_⟩
    unfold buildModel
    rw [hc']

theorem c4_cyclic_terms_fail_build_witness :
    HasTermCycle ⟨[], [], [], [("A", Expr.var "B"), ("B", Expr.var "A")], [], []⟩ ∧
    ∃ c, buildModel ⟨[], [], [], [("A", Expr.var "B"), ("B", Expr.var "A")], [], []⟩ =
      Except.error (BuildError.cyclicTerm c) :=
  have hcyc : HasTermCycle ⟨[], [], [], [("A", Expr.var "B"), ("B", Expr.var "A")], [], []⟩ :=
    ⟨"A", ["B", "A"], by decide, by decide,
      List.Chain.cons
        (show "B" ∈ termAdj ⟨[], [], [], [("A", Expr.var "B"), ("B", Expr.var "A")], [], []⟩ "A"
          by decide)
        (List.Chain.cons
          (show "A" ∈ termAdj ⟨[], [], [], [("A", Expr.var "B"), ("B", Expr.var "A")], [], []⟩ "B"
            by decide)
          List.Chain.nil),
      by decide, by decide⟩
  ⟨hcyc, c4_cyclic_terms_fail_build _ hcyc⟩

theorem leadPipeRate_eval (F av c : ℚ) :
    leadPipeRateExpr.eval (leadEnv F av c) =
      some (F * av * (117/1000) * (140 - c) / 140) := rfl

theorem outletSeq_succ (av h c0 : ℚ) (n : ℕ) :
    outletSeq av h c0 (n + 1) =
      outletSeq av h c0 n + h * (leadRateK av * (140 - outletSeq av h c0 n)) := by
  have h1 : outletSeq av h c0 (n + 1) =
      outletSeq av h c0 n + h * ((leadPipeRateExpr.eval (leadEnv 1 av
        (outletSeq av h c0 n))).getD 0) := rfl
  rw [h1, leadPipeRate_eval, Option.getD_some, leadRateK]
  ring

theorem outletSeq_closed_form (av h c0 : ℚ) :
    ∀ n, 140 - outletSeq av h c0 n = (1 - h * leadRateK av) ^ n * (140 - c0) := by
  intro n
  induction n with
  | zero => simp [outletSeq]
  | succ n ih =>
    rw [outletSeq_succ, pow_succ]
    have : 140 - (outletSeq av h c0 n + h * (leadRateK av * (140 - outletSeq av h c0 n))) =
        (140 - outletSeq av h c0 n) * (1 - h * leadRateK av) := by ring
    rw [this, ih]
    ring

/-- C7: in the lead-desorption model with parameter `F` forced to 1 on the
pipe by a per-pipe override, the concentration of the water reacting in the
pipe under the model's rate expression `F * Av * M * (E - PB2) / E` is, for
any entering concentration below `E = 140`, strictly increasing, always
strictly below `E`, and converges to `E` — it approaches the saturation level
asymptotically and monotonically from below and never exceeds it.  The
hypotheses are the physical ones: positive surface-to-volume ratio, positive
substep, and a substep small enough for the explicit integration to be
stable (`h · k < 1`, which the adaptive integrator enforces). -/
theorem c7_outlet_saturates_monotonically (av h c0 : ℚ)
    (hav : 0 < av) (hh : 0 < h) (hk : h * leadRateK av < 1) (hc0 : c0 < 140) :
    StrictMono (outletSeq av h c0) ∧
    (∀ n, outletSeq av h c0 n < 140) ∧
    Filter.Tendsto (fun n => ((outletSeq av h c0 n : ℚ) : ℝ)) Filter.atTop
      (nhds 140) := by
  have hkpos : 0 < leadRateK av := by
    rw [leadRateK]
    positivity
  have hr0 : 0 < 1 - h * leadRateK av := by linarith
  have hgap : ∀ n, 0 < 140 - outletSeq av h c0 n := by
    intro n
    rw [outletSeq_closed_form]
    exact mul_pos (pow_pos hr0 n) (by linarith)
  have hlt : ∀ n, outletSeq av h c0 n < 140 := fun n => by linarith [hgap n]
  refine ⟨?_, hlt, ?_⟩
  · apply strictMono_nat_of_lt_succ
    intro n
    rw [outletSeq_succ]
    have : 0 < h * (leadRateK av * (140 - outletSeq av h c0 n)) :=
      mul_pos hh (mul_pos hkpos (hgap n))
    linarith
  · have hval : ∀ n, ((outletSeq av h c0 n : ℚ) : ℝ) =
        140 - ((1 - h * leadRateK av : ℚ) : ℝ) ^ n * ((140 - c0 : ℚ) : ℝ) := by
      intro n
      have := outletSeq_closed_form av h c0 n
      have hcast : ((140 - outletSeq av h c0 n : ℚ) : ℝ) =
          (((1 - h * leadRateK av) ^ n * (140 - c0) : ℚ) : ℝ) := by
        exact_mod_cast congrArg (fun q : ℚ => (q : ℝ)) this
      push_cast at hcast
      push_cast
      linarith
    have hpow : Filter.Tendsto
        (fun n => ((1 - h * leadRateK av : ℚ) : ℝ) ^ n) Filter.atTop (nhds 0) := by
      apply tendsto_pow_atTop_nhds_zero_of_lt_one
      · exact_mod_cast hr0.le
      · have : h * leadRateK av > 0 := mul_pos hh hkpos
        have h1 : (1 - h * leadRateK av : ℚ) < 1 := by linarith
        exact_mod_cast h1
    have := (hpow.mul_const ((140 - c0 : ℚ) : ℝ)).const_sub (140 : ℝ)
    simp only [zero_mul, sub_zero] at this
    refine Filter.Tendsto.congr ?_ this
    intro n
    rw [hval n]

theorem c7_outlet_saturates_monotonically_witness :
    (0 : ℚ) < 1 ∧ (1 : ℚ) * leadRateK 1 < 1 ∧ (0 : ℚ) < 140 ∧
    (StrictMono (outletSeq 1 1 0) ∧ (∀ n, outletSeq 1 1 0 n < 140) ∧
      Filter.Tendsto (fun n => ((outletSeq 1 1 0 n : ℚ) : ℝ)) Filter.atTop
        (nhds 140)) :=
  ⟨by norm_num, by rw [leadRateK]; norm_num, by norm_num,
    c7_outlet_saturates_monotonically 1 1 0 (by norm_num) (by norm_num)
      (by rw [leadRateK]; norm_num) (by norm_num)⟩

theorem segsMass_append (l : List Seg) (x : Seg) :
    segsMass (l ++ [x]) = segsMass l + x.mass := by
  simp [segsMass]

theorem popVol_mass (l : List Seg) (a : ℚ) :
    segsMass (popVol l a).1 + (popVol l a).2 = segsMass l := by
  induction l generalizing a with
  | nil => simp [popVol, segsMass]
  | cons s rest ih =>
    simp only [popVol]
    split
    · simp [segsMass]
    · split
      · simp only [segsMass, List.map_cons, List.sum_cons]
        have := ih (a - s.vol)
        simp only [segsMass] at this
        linarith
      · simp only [segsMass, List.map_cons, List.sum_cons, Seg.mass]
        ring

theorem popVol_mass_zero_of_nonpos {l : List Seg} {a : ℚ} (ha : a ≤ 0) :
    (popVol l a).2 = 0 := by
  cases l with
  | nil => rfl
  | cons s rest => simp [popVol, ha]

theorem popVol_vol_nonneg {l : List Seg} (hl : ∀ s ∈ l, 0 ≤ s.vol) (a : ℚ) :
    ∀ s ∈ (popVol l a).1, 0 ≤ s.vol := by
  induction l generalizing a with
  | nil => intro s hs; simp [popVol] at hs
  | cons s rest ih =>
    simp only [popVol]
    split
    · exact hl
    · split
      · next h2 =>
        exact ih (fun x hx => hl x (List.mem_cons_of_mem s hx)) (a - s.vol)
      · next h1 h2 =>
        intro x hx
        rcases List.mem_cons.mp hx with h | h
        · rw [h]
          have : a < s.vol := lt_of_not_le h2
          simp only []
          linarith
        · exact hl x (List.mem_cons_of_mem s h)

theorem popVol_conc_zero {l : List Seg} (hl : ∀ s ∈ l, s.conc = 0) (a : ℚ) :
    (popVol l a).2 = 0 ∧ ∀ s ∈ (popVol l a).1, s.conc = 0 := by
  induction l generalizing a with
  | nil => exact ⟨rfl, fun s hs => by simp [popVol] at hs⟩
  | cons s rest ih =>
    have hs0 : s.conc = 0 := hl s (List.mem_cons_self s rest)
    have hrest : ∀ x ∈ rest, x.conc = 0 := fun x hx => hl x (List.mem_cons_of_mem s hx)
    simp only [popVol]
    split
    · exact ⟨rfl, hl⟩
    · split
      · obtain ⟨h1, h2⟩ := ih hrest (a - s.vol)
        refine ⟨?_, h2⟩
        simp [Seg.mass, hs0, h1]
      · refine ⟨by simp [hs0], ?_⟩
        intro x hx
        rcases List.mem_cons.mp hx with h | h
        · rw [h]; exact hs0
        · exact hrest x h

theorem mergeCap_mass {l : List Seg} (hl : ∀ s ∈ l, 0 ≤ s.vol) (m : ℕ) :
    segsMass (mergeCap m l) = segsMass l := by
  unfold mergeCap
  split
  · match l, hl with
    | [], _ => rfl
    | [s], _ => rfl
    | s1 :: s2 :: rest, hl =>
      have h1 : 0 ≤ s1.vol := hl s1 (List.mem_cons_self _ _)
      have h2 : 0 ≤ s2.vol := hl s2 (List.mem_cons_of_mem s1 (List.mem_cons_self _ _))
      simp only [segsMass, List.map_cons, List.sum_cons, mergeSegs, Seg.mass]
      by_cases hz : s1.vol + s2.vol = 0
      · have hv1 : s1.vol = 0 := by linarith
        have hv2 : s2.vol = 0 := by linarith
        simp [hz, hv1, hv2]
      · rw [if_neg hz]
        field_simp
        ring
  · rfl

theorem mergeCap_vol_nonneg {l : List Seg} (hl : ∀ s ∈ l, 0 ≤ s.vol) (m : ℕ) :
    ∀ s ∈ mergeCap m l, 0 ≤ s.vol := by
  unfold mergeCap
  split
  · match l, hl with
    | [], hl => exact hl
    | [s], hl => exact hl
    | s1 :: s2 :: rest, hl =>
      intro x hx
      rcases List.mem_cons.mp hx with h | h
      · rw [h]
        have h1 : 0 ≤ s1.vol := hl s1 (List.mem_cons_self _ _)
        have h2 : 0 ≤ s2.vol := hl s2 (List.mem_cons_of_mem s1 (List.mem_cons_self _ _))
        simp only [mergeSegs]
        linarith
      · exact hl x (List.mem_cons_of_mem s1 (List.mem_cons_of_mem s2 h))
  · exact hl

theorem mergeCap_conc_zero {l : List Seg} (hl : ∀ s ∈ l, s.conc = 0) (m : ℕ) :
    ∀ s ∈ mergeCap m l, s.conc = 0 := by
  unfold mergeCap
  split
  · match l, hl with
    | [], hl => exact hl
    | [s], hl => exact hl
    | s1 :: s2 :: rest, hl =>
      intro x hx
      rcases List.mem_cons.mp hx with h | h
      · rw [h]
        have h1 : s1.conc = 0 := hl s1 (List.mem_cons_self _ _)
        have h2 : s2.conc = 0 := hl s2 (List.mem_cons_of_mem s1 (List.mem_cons_self _ _))
        simp only [mergeSegs, Seg.mass, h1, h2]
        split <;> simp
      · exact hl x (List.mem_cons_of_mem s1 (List.mem_cons_of_mem s2 h))
  · exact hl

theorem segsMass_cons (x : Seg) (l : List Seg) :
    segsMass (x :: l) = x.mass + segsMass l := by
  simp [segsMass]

theorem segsMass_reverse (l : List Seg) : segsMass l.reverse = segsMass l := by
  simp [segsMass, List.sum_reverse]

theorem workSegs_mass (net : MsxNetwork) (flow : ℕ → ℚ) (i : ℕ) :
    segsMass (workSegs net flow i) = segsMass (net.segs i) := by
  unfold workSegs
  split
  · rfl
  · exact segsMass_reverse _

theorem workSegs_vol_nonneg (net : MsxNetwork) (flow : ℕ → ℚ) (i : ℕ)
    (h : ∀ s ∈ net.segs i, 0 ≤ s.vol) : ∀ s ∈ workSegs net flow i, 0 ≤ s.vol := by
  unfold workSegs
  split
  · exact h
  · intro s hs
    exact h s (List.mem_reverse.mp hs)

theorem workSegs_conc_zero (net : MsxNetwork) (flow : ℕ → ℚ) (i : ℕ)
    (h : ∀ s ∈ net.segs i, s.conc = 0) : ∀ s ∈ workSegs net flow i, s.conc = 0 := by
  unfold workSegs
  split
  · exact h
  · intro s hs
    exact h s (List.mem_reverse.mp hs)

theorem upNode_mem (net : MsxNetwork) (flow : ℕ → ℚ) {i : ℕ}
    (h : net.src i ∈ net.nodes ∧ net.dst i ∈ net.nodes) :
    upNode net flow i ∈ net.nodes := by
  unfold upNode
  split
  · exact h.1
  · exact h.2

theorem downNode_mem (net : MsxNetwork) (flow : ℕ → ℚ) {i : ℕ}
    (h : net.src i ∈ net.nodes ∧ net.dst i ∈ net.nodes) :
    downNode net flow i ∈ net.nodes := by
  unfold downNode
  split
  · exact h.2
  · exact h.1

theorem exchangePair_mass (w : ℚ) (s t : Seg) :
    (exchangePair w s t).1.mass + (exchangePair w s t).2.mass = s.mass + t.mass := by
  unfold exchangePair
  split
  · rfl
  · next h =>
    push_neg at h
    obtain ⟨h1, h2⟩ := h
    simp only [Seg.mass]
    field_simp

theorem exchangePair_vol₁ (w : ℚ) (s t : Seg) : (exchangePair w s t).1.vol = s.vol := by
  unfold exchangePair
  split
  · rfl
  · rfl

theorem exchangePair_vol₂ (w : ℚ) (s t : Seg) : (exchangePair w s t).2.vol = t.vol := by
  unfold exchangePair
  split
  · rfl
  · rfl

theorem exchangePair_conc_zero (w : ℚ) (s t : Seg) (hs : s.conc = 0) (ht : t.conc = 0) :
    (exchangePair w s t).1.conc = 0 ∧ (exchangePair w s t).2.conc = 0 := by
  unfold exchangePair
  split
  · exact ⟨hs, ht⟩
  · constructor
    · show (s.mass + w * (t.conc - s.conc)) / s.vol = 0
      simp [Seg.mass, hs, ht]
    · show (t.mass - w * (t.conc - s.conc)) / t.vol = 0
      simp [Seg.mass, hs, ht]

theorem diffuseSegs_mass (ws : List ℚ) (l : List Seg) :
    segsMass (diffuseSegs ws l) = segsMass l := by
  induction ws generalizing l with
  | nil => rfl
  | cons w ws ih =>
    match l with
    | [] => rfl
    | [s] => rfl
    | s :: t :: rest =>
      show segsMass ((exchangePair w s t).1 ::
        diffuseSegs ws ((exchangePair w s t).2 :: rest)) = segsMass (s :: t :: rest)
      rw [segsMass_cons, ih, segsMass_cons, segsMass_cons, segsMass_cons]
      have := exchangePair_mass w s t
      linarith

theorem diffuseSegs_vol_nonneg (ws : List ℚ) (l : List Seg)
    (hl : ∀ s ∈ l, 0 ≤ s.vol) : ∀ x ∈ diffuseSegs ws l, 0 ≤ x.vol := by
  induction ws generalizing l with
  | nil => exact hl
  | cons w ws ih =>
    match l, hl with
    | [], hl => exact hl
    | [s], hl => exact hl
    | s :: t :: rest, hl =>
      intro x hx
      have hx' : x ∈ (exchangePair w s t).1 ::
          diffuseSegs ws ((exchangePair w s t).2 :: rest) := hx
      rcases List.mem_cons.mp hx' with h | h
      · rw [h, exchangePair_vol₁]
        exact hl s (List.mem_cons_self _ _)
      · refine ih ((exchangePair w s t).2 :: rest) ?_ x h
        intro y hy
        rcases List.mem_cons.mp hy with h' | h'
        · rw [h', exchangePair_vol₂]
          exact hl t (List.mem_cons_of_mem s (List.mem_cons_self _ _))
        · exact hl y (List.mem_cons_of_mem s (List.mem_cons_of_mem t h'))

theorem diffuseSegs_conc_zero (ws : List ℚ) (l : List Seg)
    (hl : ∀ s ∈ l, s.conc = 0) : ∀ x ∈ diffuseSegs ws l, x.conc = 0 := by
  induction ws generalizing l with
  | nil => exact hl
  | cons w ws ih =>
    match l, hl with
    | [], hl => exact hl
    | [s], hl => exact hl
    | s :: t :: rest, hl =>
      intro x hx
      have hs0 : s.conc = 0 := hl s (List.mem_cons_self _ _)
      have ht0 : t.conc = 0 := hl t (List.mem_cons_of_mem s (List.mem_cons_self _ _))
      have hx' : x ∈ (exchangePair w s t).1 ::
          diffuseSegs ws ((exchangePair w s t).2 :: rest) := hx
      rcases List.mem_cons.mp hx' with h | h
      · rw [h]
        exact (exchangePair_conc_zero w s t hs0 ht0).1
      · refine ih ((exchangePair w s t).2 :: rest) ?_ x h
        intro y hy
        rcases List.mem_cons.mp hy with h' | h'
        · rw [h']
          exact (exchangePair_conc_zero w s t hs0 ht0).2
        · exact hl y (List.mem_cons_of_mem s (List.mem_cons_of_mem t h'))

theorem inVol_nonneg (net : MsxNetwork) (flow : ℕ → ℚ) (n : ℕ) :
    0 ≤ inVol net flow n :=
  Finset.sum_nonneg fun _ _ => abs_nonneg _

theorem inMass_eq_zero_of_inVol_zero (net : MsxNetwork) (flow : ℕ → ℚ) (n : ℕ)
    (h0 : inVol net flow n = 0) : inMass net flow n = 0 := by
  have hz : ∀ i ∈ (Finset.range net.nP).filter (fun i => downNode net flow i = n),
      avolOf flow i = 0 :=
    (Finset.sum_eq_zero_iff_of_nonneg fun i _ => abs_nonneg _).mp h0
  apply Finset.sum_eq_zero
  intro i hi
  exact popVol_mass_zero_of_nonpos (le_of_eq (hz i hi))

theorem cOut_mul_outVol_junction (net : MsxNetwork) (flow : ℕ → ℚ) (n : ℕ)
    (htk : net.isTank n = false)
    (hbal : outVol net flow n = inVol net flow n) :
    cOut net flow n * outVol net flow n = inMass net flow n := by
  simp only [cOut, htk, Bool.false_eq_true, if_false]
  by_cases h0 : inVol net flow n = 0
  · rw [if_pos h0, hbal, h0, inMass_eq_zero_of_inVol_zero net flow n h0]
    ring
  · rw [if_neg h0, hbal]
    field_simp

theorem cOut_mul_mixVol_tank (net : MsxNetwork) (flow : ℕ → ℚ) (n : ℕ)
    (htk : net.isTank n = true) (htv : 0 ≤ net.tvol n) :
    cOut net flow n * mixVol net flow n = mixMass net flow n := by
  simp only [cOut, htk, if_true]
  by_cases h0 : mixVol net flow n = 0
  · have hiv : 0 ≤ inVol net flow n := inVol_nonneg net flow n
    have hmv : net.tvol n = 0 ∧ inVol net flow n = 0 := by
      unfold mixVol at h0
      constructor <;> linarith
    rw [if_pos h0, h0, mixMass, hmv.1, inMass_eq_zero_of_inVol_zero net flow n hmv.2]
    ring
  · rw [if_neg h0]
    field_simp

theorem transportStep_mass (net : MsxNetwork) (flow : ℕ → ℚ) (maxSegs : ℕ)
    (pecletTh : ℚ) (pec : ℕ → ℚ) (wdiff : ℕ → List ℚ)
    (hwf : NetWF net) (hfl : FlowOK net flow) :
    totalMass (transportStep net flow maxSegs pecletTh pec wdiff) = totalMass net := by
  obtain ⟨hend, hseg, htank⟩ := hwf
  obtain ⟨hbal, hcap⟩ := hfl
  -- mass of each pipe after the step (reversal, pop, push, cap and regime)
  have hpipe : ∀ i ∈ Finset.range net.nP,
      segsMass (stepSegs net flow maxSegs pecletTh pec wdiff i) =
        segsMass (net.segs i) - (popVol (workSegs net flow i) (avolOf flow i)).2 +
          avolOf flow i * cOut net flow (upNode net flow i) := by
    intro i hi
    have hnn : ∀ s ∈ (popVol (workSegs net flow i) (avolOf flow i)).1 ++
        [⟨avolOf flow i, cOut net flow (upNode net flow i)⟩], 0 ≤ s.vol := by
      intro s hs
      rcases List.mem_append.mp hs with h | h
      · exact popVol_vol_nonneg (workSegs_vol_nonneg net flow i (hseg i hi))
          (avolOf flow i) s h
      · rw [List.mem_singleton.mp h]
        exact abs_nonneg _
    have hbase : segsMass (mergeCap maxSegs
        ((popVol (workSegs net flow i) (avolOf flow i)).1 ++
          [⟨avolOf flow i, cOut net flow (upNode net flow i)⟩])) =
        segsMass (net.segs i) - (popVol (workSegs net flow i) (avolOf flow i)).2 +
          avolOf flow i * cOut net flow (upNode net flow i) := by
      rw [mergeCap_mass hnn, segsMass_append]
      have h1 := popVol_mass (workSegs net flow i) (avolOf flow i)
      have h2 := workSegs_mass net flow i
      simp only [Seg.mass]
      linarith
    unfold stepSegs
    split
    · rw [diffuseSegs_mass]
      exact hbase
    · exact hbase
  -- total pipe mass after the step
  have hpipes : pipesMass (transportStep net flow maxSegs pecletTh pec wdiff) =
      pipesMass net -
        (∑ i ∈ Finset.range net.nP, (popVol (workSegs net flow i) (avolOf flow i)).2) +
        ∑ i ∈ Finset.range net.nP, avolOf flow i * cOut net flow (upNode net flow i) := by
    unfold pipesMass transportStep
    simp only []
    rw [Finset.sum_congr rfl hpipe, Finset.sum_add_distrib, Finset.sum_sub_distrib]
  -- regroup the popped masses by current downstream node
  have hpop : ∑ i ∈ Finset.range net.nP, (popVol (workSegs net flow i) (avolOf flow i)).2 =
      ∑ n ∈ net.nodes, inMass net flow n := by
    unfold inMass
    exact (Finset.sum_fiberwise_of_maps_to
      (fun i hi => downNode_mem net flow (hend i hi)) _).symm
  -- regroup the pushed masses by current upstream node
  have hpush : ∑ i ∈ Finset.range net.nP,
      avolOf flow i * cOut net flow (upNode net flow i) =
      ∑ n ∈ net.nodes, cOut net flow n * outVol net flow n := by
    rw [← Finset.sum_fiberwise_of_maps_to (fun i hi => upNode_mem net flow (hend i hi))
      (fun i => avolOf flow i * cOut net flow (upNode net flow i))]
    apply Finset.sum_congr rfl
    intro n _
    rw [outVol, Finset.mul_sum]
    apply Finset.sum_congr rfl
    intro i hi
    rw [(Finset.mem_filter.mp hi).2]
    ring
  -- tank masses after the step
  have htanks : tanksMass (transportStep net flow maxSegs pecletTh pec wdiff) =
      tanksMass net +
        ∑ n ∈ net.nodes.filter (fun n => net.isTank n = true), inMass net flow n -
        ∑ n ∈ net.nodes.filter (fun n => net.isTank n = true),
          cOut net flow n * outVol net flow n := by
    unfold tanksMass transportStep
    simp only []
    have hpt : ∀ n ∈ net.nodes.filter (fun n => net.isTank n = true),
        (if net.isTank n = true then mixVol net flow n - outVol net flow n
          else net.tvol n) *
          (if net.isTank n = true then cOut net flow n else net.tconc n) =
          net.tvol n * net.tconc n + inMass net flow n -
            cOut net flow n * outVol net flow n := by
      intro n hn
      have hmem := Finset.mem_filter.mp hn
      rw [if_pos hmem.2, if_pos hmem.2]
      have hkey := cOut_mul_mixVol_tank net flow n hmem.2 (htank n hmem.1 hmem.2)
      unfold mixMass at hkey
      unfold mixVol at hkey ⊢
      calc (net.tvol n + inVol net flow n - outVol net flow n) * cOut net flow n
          = cOut net flow n * (net.tvol n + inVol net flow n) -
              outVol net flow n * cOut net flow n := by ring
        _ = net.tvol n * net.tconc n + inMass net flow n -
              cOut net flow n * outVol net flow n := by rw [hkey]; ring
    rw [Finset.sum_congr rfl hpt, Finset.sum_sub_distrib, Finset.sum_add_distrib]
  -- junction contributions cancel pointwise
  have hjunc : ∀ n ∈ net.nodes.filter (fun n => ¬ net.isTank n = true),
      cOut net flow n * outVol net flow n = inMass net flow n := by
    intro n hn
    have hmem := Finset.mem_filter.mp hn
    exact cOut_mul_outVol_junction net flow n
      (Bool.not_eq_true _ ▸ hmem.2) (hbal n hmem.1 (Bool.not_eq_true _ ▸ hmem.2))
  have hsplit1 : ∑ n ∈ net.nodes, inMass net flow n =
      ∑ n ∈ net.nodes.filter (fun n => net.isTank n = true), inMass net flow n +
      ∑ n ∈ net.nodes.filter (fun n => ¬ net.isTank n = true), inMass net flow n :=
    (Finset.sum_filter_add_sum_filter_not net.nodes _ _).symm
  have hsplit2 : ∑ n ∈ net.nodes, cOut net flow n * outVol net flow n =
      ∑ n ∈ net.nodes.filter (fun n => net.isTank n = true),
        cOut net flow n * outVol net flow n +
      ∑ n ∈ net.nodes.filter (fun n => ¬ net.isTank n = true),
        cOut net flow n * outVol net flow n :=
    (Finset.sum_filter_add_sum_filter_not net.nodes _ _).symm
  have hjz : ∑ n ∈ net.nodes.filter (fun n => ¬ net.isTank n = true),
      cOut net flow n * outVol net flow n =
      ∑ n ∈ net.nodes.filter (fun n => ¬ net.isTank n = true), inMass net flow n :=
    Finset.sum_congr rfl hjunc
  unfold totalMass
  rw [hpipes, htanks, hpop, hpush, hsplit1, hsplit2, hjz]
  ring

theorem transportStep_wf (net : MsxNetwork) (flow : ℕ → ℚ) (maxSegs : ℕ)
    (pecletTh : ℚ) (pec : ℕ → ℚ) (wdiff : ℕ → List ℚ)
    (hwf : NetWF net) (hfl : FlowOK net flow) :
    NetWF (transportStep net flow maxSegs pecletTh pec wdiff) := by
  obtain ⟨hend, hseg, htank⟩ := hwf
  obtain ⟨hbal, hcap⟩ := hfl
  refine ⟨hend, ?_, ?_⟩
  · intro i hi s hs
    have hnn : ∀ x ∈ (popVol (workSegs net flow i) (avolOf flow i)).1 ++
        [⟨avolOf flow i, cOut net flow (upNode net flow i)⟩], 0 ≤ x.vol := by
      intro x hx
      rcases List.mem_append.mp hx with h | h
      · exact popVol_vol_nonneg (workSegs_vol_nonneg net flow i (hseg i hi))
          (avolOf flow i) x h
      · rw [List.mem_singleton.mp h]
        exact abs_nonneg _
    have hbase := mergeCap_vol_nonneg hnn maxSegs
    have hs' : s ∈ stepSegs net flow maxSegs pecletTh pec wdiff i := hs
    unfold stepSegs at hs'
    split at hs'
    · exact diffuseSegs_vol_nonneg _ _ hbase s hs'
    · exact hbase s hs'
  · intro n hn htk
    have htk' : net.isTank n = true := htk
    show (0 : ℚ) ≤ if net.isTank n = true then
      mixVol net flow n - outVol net flow n else net.tvol n
    rw [if_pos htk']
    have := hcap n hn htk'
    linarith

theorem simulate_wf (net : MsxNetwork) (flows : ℕ → ℕ → ℚ) (maxSegs : ℕ)
    (pecletTh : ℚ) (pecs : ℕ → ℕ → ℚ) (wdiffs : ℕ → ℕ → List ℚ) (hwf : NetWF net) :
    ∀ n, (∀ k, k < n →
        FlowOK (simulate net flows maxSegs pecletTh pecs wdiffs k) (flows k)) →
      NetWF (simulate net flows maxSegs pecletTh pecs wdiffs n) := by
  intro n
  induction n with
  | zero => intro _; exact hwf
  | succ n ih =>
    intro hfl
    exact transportStep_wf _ _ _ _ _ _
      (ih fun k hk => hfl k (Nat.lt_succ_of_lt hk))
      (hfl n (Nat.lt_succ_self n))

/-- C3: in a closed network with zero reaction rates and zero sources, the
total species mass — the sum over all pipe segments of volume times
concentration plus the sum over all tanks of volume times concentration — is
exactly conserved by the segment transport step across any number of
hydraulic steps.  The step is the full §4.3 step: reversal of the segment
order when the flow's sign changes, pop of |flow|·dt from the current
downstream end, node mixing, push of the new upstream segment, the
segment-count-cap merge of the two oldest downstream segments, and the
per-pipe per-step Péclet-regime runtime decision applying the diffusive
boundary-averaging pass below the threshold.  The theorem quantifies over
every signed flow schedule whose junctions are volume-balanced and whose
tanks are never drawn below empty, every Péclet surrogate, threshold and
choice of diffusive blending volumes.  Conservation is exact in the rational
model, hence within any floating-point tolerance; in particular neither the
cap merge nor the diffusive averaging ever loses mass. -/
theorem c3_total_mass_conserved (net : MsxNetwork) (flows : ℕ → ℕ → ℚ)
    (maxSegs : ℕ) (pecletTh : ℚ) (pecs : ℕ → ℕ → ℚ) (wdiffs : ℕ → ℕ → List ℚ)
    (n : ℕ) (hwf : NetWF net)
    (hfl : ∀ k, k < n →
      FlowOK (simulate net flows maxSegs pecletTh pecs wdiffs k) (flows k)) :
    totalMass (simulate net flows maxSegs pecletTh pecs wdiffs n) = totalMass net := by
  induction n with
  | zero => rfl
  | succ n ih =>
    have hfl' : ∀ k, k < n →
        FlowOK (simulate net flows maxSegs pecletTh pecs wdiffs k) (flows k) :=
      fun k hk => hfl k (Nat.lt_succ_of_lt hk)
    have hwfn := simulate_wf net flows maxSegs pecletTh pecs wdiffs hwf n hfl'
    show totalMass (transportStep (simulate net flows maxSegs pecletTh pecs wdiffs n)
      (flows n) maxSegs pecletTh (pecs n) (wdiffs n)) = totalMass net
    rw [transportStep_mass _ _ _ _ _ _ hwfn (hfl n (Nat.lt_succ_self n)), ih hfl']

theorem outVol_zero (net : MsxNetwork) (n : ℕ) : outVol net (fun _ => 0) n = 0 :=
  Finset.sum_eq_zero fun _ _ => abs_zero

theorem inVol_zero (net : MsxNetwork) (n : ℕ) : inVol net (fun _ => 0) n = 0 :=
  Finset.sum_eq_zero fun _ _ => abs_zero

theorem flowZero_ok (net : MsxNetwork) (hwf : NetWF net) :
    FlowOK net (fun _ => 0) := by
  refine ⟨fun n hn htk => ?_, fun n hn htk => ?_⟩
  · rw [outVol_zero, inVol_zero]
  · rw [outVol_zero]
    unfold mixVol
    rw [inVol_zero]
    have := hwf.2.2 n hn htk
    linarith

theorem simulate_zero_flow_wf (net : MsxNetwork) (maxSegs : ℕ) (pecletTh : ℚ)
    (pecs : ℕ → ℕ → ℚ) (wdiffs : ℕ → ℕ → List ℚ) (hwf : NetWF net) :
    ∀ k, NetWF (simulate net (fun _ _ => 0) maxSegs pecletTh pecs wdiffs k)
  | 0 => hwf
  | k + 1 =>
    transportStep_wf _ _ _ _ _ _
      (simulate_zero_flow_wf net maxSegs pecletTh pecs wdiffs hwf k)
      (flowZero_ok _ (simulate_zero_flow_wf net maxSegs pecletTh pecs wdiffs hwf k))

theorem c3_total_mass_conserved_witness :
    NetWF (testNet 5 3) ∧
    (∀ k, k < 3 → FlowOK (simulate (testNet 5 3) (fun _ _ => 0) 4 1000
      (fun _ _ => 0) (fun _ _ => [1/2, 1/2]) k) ((fun _ _ => (0 : ℚ)) k)) ∧
    totalMass (simulate (testNet 5 3) (fun _ _ => 0) 4 1000
      (fun _ _ => 0) (fun _ _ => [1/2, 1/2]) 3) = totalMass (testNet 5 3) :=
  have hwf : NetWF (testNet 5 3) := by
    simp only [NetWF]
    decide
  have hfl : ∀ k, k < 3 → FlowOK (simulate (testNet 5 3) (fun _ _ => 0) 4 1000
      (fun _ _ => 0) (fun _ _ => [1/2, 1/2]) k) ((fun _ _ => (0 : ℚ)) k) :=
    fun k _ => flowZero_ok _
      (simulate_zero_flow_wf (testNet 5 3) 4 1000 (fun _ _ => 0)
        (fun _ _ => [1/2, 1/2]) hwf k)
  ⟨hwf, hfl, c3_total_mass_conserved (testNet 5 3) (fun _ _ => 0) 4 1000
    (fun _ _ => 0) (fun _ _ => [1/2, 1/2]) 3 hwf hfl⟩

theorem inMass_zero_of_allZero (net : MsxNetwork) (flow : ℕ → ℚ)
    (hz : ∀ i ∈ Finset.range net.nP, ∀ s ∈ net.segs i, s.conc = 0) (n : ℕ) :
    inMass net flow n = 0 :=
  Finset.sum_eq_zero fun i hi =>
    (popVol_conc_zero
      (workSegs_conc_zero net flow i (hz i (Finset.mem_filter.mp hi).1))
      (avolOf flow i)).1

theorem cOut_zero_of_allZero (net : MsxNetwork) (flow : ℕ → ℚ) (hz : AllZero net)
    (n : ℕ) (hn : n ∈ net.nodes) : cOut net flow n = 0 := by
  unfold cOut mixMass
  rw [inMass_zero_of_allZero net flow hz.1 n]
  split
  · rw [hz.2 n hn]
    split
    · rfl
    · simp
  · split
    · rfl
    · simp

theorem transportStep_allZero (net : MsxNetwork) (flow : ℕ → ℚ) (maxSegs : ℕ)
    (pecletTh : ℚ) (pec : ℕ → ℚ) (wdiff : ℕ → List ℚ)
    (hends : ∀ i ∈ Finset.range net.nP, net.src i ∈ net.nodes ∧ net.dst i ∈ net.nodes)
    (hz : AllZero net) :
    AllZero (transportStep net flow maxSegs pecletTh pec wdiff) := by
  constructor
  · intro i hi s hs
    have hi' : i ∈ Finset.range net.nP := hi
    have hall : ∀ x ∈ (popVol (workSegs net flow i) (avolOf flow i)).1 ++
        [⟨avolOf flow i, cOut net flow (upNode net flow i)⟩], x.conc = 0 := by
      intro x hx
      rcases List.mem_append.mp hx with h | h
      · exact (popVol_conc_zero (workSegs_conc_zero net flow i (hz.1 i hi'))
          (avolOf flow i)).2 x h
      · rw [List.mem_singleton.mp h]
        exact cOut_zero_of_allZero net flow hz (upNode net flow i)
          (upNode_mem net flow (hends i hi'))
    have hcap := mergeCap_conc_zero hall maxSegs
    have hs' : s ∈ stepSegs net flow maxSegs pecletTh pec wdiff i := hs
    unfold stepSegs at hs'
    split at hs'
    · exact diffuseSegs_conc_zero _ _ hcap s hs'
    · exact hcap s hs'
  · intro n hn
    have hn' : n ∈ net.nodes := hn
    show (if net.isTank n = true then cOut net flow n else net.tconc n) = 0
    split
    · exact cOut_zero_of_allZero net flow hz n hn'
    · exact hz.2 n hn'

theorem leadF_zero (loc : String) : leadF loc = 0 := rfl

theorem leadRate_zero (av c : ℚ) (loc : String) :
    leadPipeRateExpr.eval (leadEnv (leadF loc) av c) = some 0 := by
  rw [leadF_zero, leadPipeRate_eval]
  norm_num

theorem leadTankRate_eval (fval av c : ℚ) :
    leadTankRateExpr.eval (leadEnv fval av c) = some 0 := rfl

theorem reactPipe_lead (dt av : ℚ) (loc : String) (l : List Seg) :
    reactPipe dt (fun c => leadPipeRateExpr.eval (leadEnv (leadF loc) av c)) l =
      some (l.map fun s => ⟨s.vol, s.conc + dt * 0⟩) := by
  induction l with
  | nil => rfl
  | cons s rest ih =>
    rw [reactPipe] at ih ⊢
    rw [decodeList]
    rw [show reactSeg dt (fun c => leadPipeRateExpr.eval (leadEnv (leadF loc) av c)) s =
        some ⟨s.vol, s.conc + dt * 0⟩ from by rw [reactSeg, leadRate_zero]; rfl]
    rw [Option.some_bind, ih]
    rfl

theorem kineticsStep_eq (net : MsxNetwork) (dt : ℚ) (rate : ℕ → ℚ → Option ℚ)
    (tankRate : ℕ → ℚ → Option ℚ)
    (h : (∀ i ∈ Finset.range net.nP, (reactPipe dt (rate i) (net.segs i)).isSome = true) ∧
      (∀ n ∈ net.nodes, net.isTank n = true → (tankRate n (net.tconc n)).isSome = true)) :
    kineticsStep net dt rate tankRate = some { net with
      segs := fun i => (reactPipe dt (rate i) (net.segs i)).getD (net.segs i),
      tconc := fun n =>
        if net.isTank n = true ∧ n ∈ net.nodes then
          ((tankRate n (net.tconc n)).map fun r => net.tconc n + dt * r).getD (net.tconc n)
        else net.tconc n } := by
  rw [kineticsStep, if_pos h]

theorem leadStep_allZero (net : MsxNetwork) (flow : ℕ → ℚ) (maxSegs : ℕ)
    (pecletTh : ℚ) (pec : ℕ → ℚ) (wdiff : ℕ → List ℚ)
    (dt : ℚ) (av : ℕ → ℚ) (pipeName : ℕ → String)
    (hends : ∀ i ∈ Finset.range net.nP, net.src i ∈ net.nodes ∧ net.dst i ∈ net.nodes)
    (hz : AllZero net) :
    ∃ net', leadStep net flow maxSegs pecletTh pec wdiff dt av pipeName = some net' ∧
      AllZero net' ∧ net'.nP = net.nP ∧ net'.src = net.src ∧ net'.dst = net.dst ∧
      net'.nodes = net.nodes := by
  have hz₁ : AllZero (transportStep net flow maxSegs pecletTh pec wdiff) :=
    transportStep_allZero net flow maxSegs pecletTh pec wdiff hends hz
  set net₁ := transportStep net flow maxSegs pecletTh pec wdiff with hnet₁
  have hcond : (∀ i ∈ Finset.range net₁.nP,
      (reactPipe dt ((fun i c => leadPipeRateExpr.eval
        (leadEnv (leadF (pipeName i)) (av i) c)) i) (net₁.segs i)).isSome = true) ∧
      (∀ n ∈ net₁.nodes, net₁.isTank n = true →
        ((fun (_ : ℕ) (c : ℚ) => leadTankRateExpr.eval (leadEnv 0 0 c)) n
          (net₁.tconc n)).isSome = true) := by
    constructor
    · intro i _
      show (reactPipe dt (fun c => leadPipeRateExpr.eval
        (leadEnv (leadF (pipeName i)) (av i) c)) (net₁.segs i)).isSome = true
      rw [reactPipe_lead]
      rfl
    · intro n _ _
      rfl
  refine ⟨_, kineticsStep_eq net₁ dt _ _ hcond, ?_, rfl, rfl, rfl, rfl⟩
  constructor
  · intro i hi s hs
    have hi' : i ∈ Finset.range net₁.nP := hi
    have hs' : s ∈ (reactPipe dt (fun c => leadPipeRateExpr.eval
        (leadEnv (leadF (pipeName i)) (av i) c)) (net₁.segs i)).getD (net₁.segs i) := hs
    rw [reactPipe_lead, Option.getD_some] at hs'
    obtain ⟨x, hx, hxe⟩ := List.mem_map.mp hs'
    rw [← hxe]
    have hx0 : x.conc = 0 := hz₁.1 i hi' x hx
    show x.conc + dt * 0 = 0
    rw [hx0]
    ring
  · intro n hn
    have hn' : n ∈ net₁.nodes := hn
    have hgoal : (if net₁.isTank n = true ∧ n ∈ net₁.nodes then
        ((Expr.eval (leadEnv 0 0 (net₁.tconc n)) leadTankRateExpr).map
          (fun r => net₁.tconc n + dt * r)).getD (net₁.tconc n)
      else net₁.tconc n) = 0 := by
      split
      · rw [show Expr.eval (leadEnv 0 0 (net₁.tconc n)) leadTankRateExpr = some 0 from rfl]
        show net₁.tconc n + dt * 0 = 0
        rw [hz₁.2 n hn']
        ring
      · exact hz₁.2 n hn'
    exact hgoal

/-- C6: in the lead-desorption model with parameter `F` at its declared global
default 0 everywhere (no pipe or tank overrides, as in the serialized model's
network data) and initial quality 0, the concentration of PB2 stays exactly
0 at every location — every pipe segment and every node — for any number of
hydraulic steps of the coupled transport-plus-kinetics simulation, for every
signed flow schedule (reversals included), every Péclet regime and diffusive
blending, every timestep and every pipe geometry: the reaction is a no-op. -/
theorem c6_lead_default_noop (net : MsxNetwork) (flows : ℕ → ℕ → ℚ) (maxSegs : ℕ)
    (pecletTh : ℚ) (pecs : ℕ → ℕ → ℚ) (wdiffs : ℕ → ℕ → List ℚ)
    (dt : ℚ) (av : ℕ → ℚ) (pipeName : ℕ → String) (n : ℕ)
    (hends : ∀ i ∈ Finset.range net.nP, net.src i ∈ net.nodes ∧ net.dst i ∈ net.nodes)
    (hz : AllZero net) :
    ∃ net', leadSimulate net flows maxSegs pecletTh pecs wdiffs dt av pipeName n =
      some net' ∧ AllZero net' := by
  have main : ∀ m, ∃ net',
      leadSimulate net flows maxSegs pecletTh pecs wdiffs dt av pipeName m = some net' ∧
      AllZero net' ∧ net'.nP = net.nP ∧ net'.src = net.src ∧ net'.dst = net.dst ∧
      net'.nodes = net.nodes := by
    intro m
    induction m with
    | zero => exact ⟨net, rfl, hz, rfl, rfl, rfl, rfl⟩
    | succ m ih =>
      obtain ⟨s, hs, hzs, hnP, hsrc', hdst', hnodes⟩ := ih
      have hendss : ∀ i ∈ Finset.range s.nP, s.src i ∈ s.nodes ∧ s.dst i ∈ s.nodes := by
        rw [hnP, hsrc', hdst', hnodes]
        exact hends
      obtain ⟨t, ht, hzt, h1, h2, h3, h4⟩ :=
        leadStep_allZero s (flows m) maxSegs pecletTh (pecs m) (wdiffs m) dt av
          pipeName hendss hzs
      refine ⟨t, ?_, hzt, h1.trans hnP, h2.trans hsrc', h3.trans hdst', h4.trans hnodes⟩
      rw [leadSimulate, hs, Option.some_bind]
      exact ht
  obtain ⟨net', h1, h2, _⟩ := main n
  exact ⟨net', h1, h2⟩

theorem c6_lead_default_noop_witness :
    (∀ i ∈ Finset.range (testNet 0 0).nP,
      (testNet 0 0).src i ∈ (testNet 0 0).nodes ∧
        (testNet 0 0).dst i ∈ (testNet 0 0).nodes) ∧
    AllZero (testNet 0 0) ∧
    ∃ net', leadSimulate (testNet 0 0) (fun k _ => if k = 0 then 1 else -1) 4 1000
      (fun _ _ => 0) (fun _ _ => [1/2, 1/2]) 1 (fun _ => 1) (fun _ => "P1") 3 =
      some net' ∧ AllZero net' :=
  have h1 : ∀ i ∈ Finset.range (testNet 0 0).nP,
      (testNet 0 0).src i ∈ (testNet 0 0).nodes ∧
        (testNet 0 0).dst i ∈ (testNet 0 0).nodes := by decide
  have h2 : AllZero (testNet 0 0) := by
    simp only [AllZero]
    decide
  ⟨h1, h2, c6_lead_default_noop (testNet 0 0) (fun k _ => if k = 0 then 1 else -1) 4
    1000 (fun _ _ => 0) (fun _ _ => [1/2, 1/2]) 1 (fun _ => 1) (fun _ => "P1") 3 h1 h2⟩
